import Mathlib

/-!
# Verification development for the flary MCP transport-and-session layer

Shallow embedding of the repository's MCP session router
(`MCPDurableObject.fetch`, the `MCP` constructor's auth middleware and
worker-level route handler) and of its two wire transports
(`EdgeSSETransport` in `src/transports/edgeSSE`, `WebSocketTransport` in
`src/transports/webSockets`), together with proofs about the embedded
definitions.

Strings on the wire are modelled as `List Char`.  The platform builtins
`JSON.stringify` / `JSON.parse` (not part of this repository) are modelled
by an executable serializer and parser over a JSON value type; numbers are
modelled as integers (the messages this layer carries use integer ids) and
the model is faithful for ASCII data.
-/

/-- JSON values, modelling the values `JSON.stringify` / `JSON.parse`
operate on.  Numbers are modelled as integers. -/
inductive JVal where
  | jnull
  | jbool (b : Bool)
  | jnum (n : Int)
  | jstr (s : List Char)
  | jarr (xs : List JVal)
  | jobj (fs : List (List Char × JVal))

/-- Decimal digit character for a value below ten. -/
def digitChar (n : Nat) : Char := Char.ofNat (48 + n)

/-- Decimal digits of a natural number, most significant first
(modelling how `JSON.stringify` prints a non-negative integer). -/
def natDigits (n : Nat) : List Char :=
  if _h : n < 10 then [digitChar n]
  else natDigits (n / 10) ++ [digitChar (n % 10)]
  decreasing_by exact Nat.div_lt_self (by omega) (by omega)

/-- Lower-case hexadecimal digit character for a value below sixteen. -/
def hexChar (n : Nat) : Char :=
  if n < 10 then Char.ofNat (48 + n) else Char.ofNat (87 + n)

/-- JSON string escaping of one character, modelling `JSON.stringify`'s
treatment of string data (faithful for ASCII): quote, backslash, the named
control escapes, `\u00XX` for other control characters, everything else
verbatim. -/
def escapeChar (c : Char) : List Char :=
  if c = Char.ofNat 34 then [Char.ofNat 92, Char.ofNat 34]
  else if c = Char.ofNat 92 then [Char.ofNat 92, Char.ofNat 92]
  else if c = Char.ofNat 10 then [Char.ofNat 92, 'n']
  else if c = Char.ofNat 13 then [Char.ofNat 92, 'r']
  else if c = Char.ofNat 9 then [Char.ofNat 92, 't']
  else if c = Char.ofNat 8 then [Char.ofNat 92, 'b']
  else if c = Char.ofNat 12 then [Char.ofNat 92, 'f']
  else if c.toNat < 32 then
    [Char.ofNat 92, 'u', '0', '0', hexChar (c.toNat / 16), hexChar (c.toNat % 16)]
  else [c]

/-- JSON escaping of a whole string body. -/
def escapeStr : List Char → List Char
  | [] => []
  | c :: cs => escapeChar c ++ escapeStr cs

/-- Serialization of an integer the way `JSON.stringify` prints it. -/
def intChars (n : Int) : List Char :=
  if n < 0 then '-' :: natDigits n.natAbs else natDigits n.toNat

mutual

/-- The model of `JSON.stringify`: compact serialization with no
insignificant whitespace, exactly the form the transports put on the
wire. -/
def stringify : JVal → List Char
  | .jnull => 'n' :: 'u' :: 'l' :: 'l' :: []
  | .jbool true => 't' :: 'r' :: 'u' :: 'e' :: []
  | .jbool false => 'f' :: 'a' :: 'l' :: 's' :: 'e' :: []
  | .jnum n => intChars n
  | .jstr s => Char.ofNat 34 :: escapeStr s ++ [Char.ofNat 34]
  | .jarr xs => '[' :: sItems xs ++ [']']
  | .jobj fs => Char.ofNat 123 :: sFields fs ++ [Char.ofNat 125]

/-- Comma-separated serialization of array elements. -/
def sItems : List JVal → List Char
  | [] => []
  | [x] => stringify x
  | x :: y :: xs => stringify x ++ ',' :: sItems (y :: xs)

/-- Comma-separated serialization of object fields. -/
def sFields : List (List Char × JVal) → List Char
  | [] => []
  | [f] => sField f
  | f :: g :: fs => sField f ++ ',' :: sFields (g :: fs)

/-- Serialization of one object field: quoted key, colon, value. -/
def sField : List Char × JVal → List Char
  | (k, v) => Char.ofNat 34 :: escapeStr k ++ Char.ofNat 34 :: ':' :: stringify v

end

/-- Serialization of the element list of a non-empty array viewed from
after its first element: empty for no further elements, otherwise a comma
followed by the remaining elements. -/
def sTail (xs : List JVal) : List Char :=
  match xs with
  | [] => []
  | y :: ys => ',' :: sItems (y :: ys)

/-- Serialization of the field list of a non-empty object viewed from
after its first field. -/
def sFTail (fs : List (List Char × JVal)) : List Char :=
  match fs with
  | [] => []
  | g :: gs => ',' :: sFields (g :: gs)

/-- Digit test on character codes (48–57). -/
def isDig (c : Char) : Bool := 48 ≤ c.toNat && c.toNat ≤ 57

/-- Numeric value of a digit character. -/
def digVal (c : Char) : Nat := c.toNat - 48

/-- Greedy decimal-digit run parser with accumulator, modelling how a
JSON number's digits are consumed. -/
def parseDigits : List Char → Nat → Nat × List Char
  | [], acc => (acc, [])
  | c :: cs, acc => if isDig c then parseDigits cs (10 * acc + digVal c) else (acc, c :: cs)

/-- Value of a hexadecimal digit character (lower case), if any. -/
def hexVal (c : Char) : Option Nat :=
  if 48 ≤ c.toNat && c.toNat ≤ 57 then some (c.toNat - 48)
  else if 97 ≤ c.toNat && c.toNat ≤ 102 then some (c.toNat - 87)
  else none

/-- Decoding of a single-character JSON string escape. -/
def escDecode (e : Char) : Option Char :=
  if e = Char.ofNat 34 then some (Char.ofNat 34)
  else if e = Char.ofNat 92 then some (Char.ofNat 92)
  else if e = '/' then some '/'
  else if e = 'n' then some (Char.ofNat 10)
  else if e = 'r' then some (Char.ofNat 13)
  else if e = 't' then some (Char.ofNat 9)
  else if e = 'b' then some (Char.ofNat 8)
  else if e = 'f' then some (Char.ofNat 12)
  else none

/-- Parser for the body of a JSON string literal (after the opening
quote), returning the decoded characters and the input after the closing
quote. -/
def parseStrBody (cs : List Char) : Option (List Char × List Char) :=
  match cs with
  | [] => none
  | c :: cs' =>
    if c = Char.ofNat 34 then some ([], cs')
    else if c = Char.ofNat 92 then
      match cs' with
      | [] => none
      | e :: cs'' =>
        if e = 'u' then
          match cs'' with
          | h1 :: h2 :: h3 :: h4 :: rest =>
            match hexVal h1, hexVal h2, hexVal h3, hexVal h4 with
            | some a, some b, some c3, some d =>
              match parseStrBody rest with
              | some (s, r) => some (Char.ofNat (4096 * a + 256 * b + 16 * c3 + d) :: s, r)
              | none => none
            | _, _, _, _ => none
          | _ => none
        else
          match escDecode e with
          | some d =>
            match parseStrBody cs'' with
            | some (s, r) => some (d :: s, r)
            | none => none
          | none => none
    else if c.toNat < 32 then none
    else
      match parseStrBody cs' with
      | some (s, r) => some (c :: s, r)
      | none => none
  termination_by cs.length
  decreasing_by all_goals (simp_all; try omega)

mutual

/-- Fueled parser for one JSON value, the model of `JSON.parse` on the
compact grammar `stringify` emits.  Returns the value and the remaining
input. -/
def parseVal : Nat → List Char → Option (JVal × List Char)
  | 0, _ => none
  | _ + 1, [] => none
  | f + 1, c :: cs =>
    if isDig c then
      let p := parseDigits (c :: cs) 0
      some (.jnum (p.1 : Int), p.2)
    else if c = '-' then
      match cs with
      | [] => none
      | d :: ds =>
        if isDig d then
          let p := parseDigits (d :: ds) 0
          some (.jnum (-(p.1 : Int)), p.2)
        else none
    else if c = Char.ofNat 34 then
      match parseStrBody cs with
      | some (s, r) => some (.jstr s, r)
      | none => none
    else if c = 'n' then
      match cs with
      | 'u' :: 'l' :: 'l' :: r => some (.jnull, r)
      | _ => none
    else if c = 't' then
      match cs with
      | 'r' :: 'u' :: 'e' :: r => some (.jbool true, r)
      | _ => none
    else if c = 'f' then
      match cs with
      | 'a' :: 'l' :: 's' :: 'e' :: r => some (.jbool false, r)
      | _ => none
    else if c = '[' then
      if cs.head? = some ']' then some (.jarr [], cs.tail)
      else
        match parseVal f cs with
        | some (v, r) =>
          match parseATail f r with
          | some (vs, r') => some (.jarr (v :: vs), r')
          | none => none
        | none => none
    else if c = Char.ofNat 123 then
      if cs.head? = some (Char.ofNat 125) then some (.jobj [], cs.tail)
      else
        match parseField f cs with
        | some (kv, r) =>
          match parseOTail f r with
          | some (kvs, r') => some (.jobj (kv :: kvs), r')
          | none => none
        | none => none
    else none
  termination_by f _ => (f, 0)

/-- Fueled parser for the remainder of a JSON array after an element:
either the closing bracket or a comma and further elements. -/
def parseATail : Nat → List Char → Option (List JVal × List Char)
  | 0, _ => none
  | _ + 1, ']' :: r => some ([], r)
  | f + 1, ',' :: cs =>
    match parseVal f cs with
    | some (v, r) =>
      match parseATail f r with
      | some (vs, r') => some (v :: vs, r')
      | none => none
    | none => none
  | _ + 1, _ => none
  termination_by f _ => (f, 1)

/-- Fueled parser for the remainder of a JSON object after a field. -/
def parseOTail : Nat → List Char → Option (List (List Char × JVal) × List Char)
  | 0, _ => none
  | f + 1, c :: cs =>
    if c = Char.ofNat 125 then some ([], cs)
    else if c = ',' then
      match parseField f cs with
      | some (kv, r) =>
        match parseOTail f r with
        | some (kvs, r') => some (kv :: kvs, r')
        | none => none
      | none => none
    else none
  | _ + 1, [] => none
  termination_by f _ => (f, 1)

/-- Fueled parser for one JSON object field: quoted key, colon, value. -/
def parseField (f : Nat) (cs : List Char) : Option ((List Char × JVal) × List Char) :=
  match cs with
  | c :: cs' =>
    if c = Char.ofNat 34 then
      match parseStrBody cs' with
      | some (k, r) =>
        match r with
        | ':' :: r' =>
          match parseVal f r' with
          | some (v, r'') => some ((k, v), r'')
          | none => none
        | _ => none
      | none => none
    else none
  | [] => none
  termination_by (f, 1)

end

/-- Fuel bound used by the top-level parser. -/
def jfuel (s : List Char) : Nat := 3 * s.length + 2

/-- The model of `JSON.parse` on a complete input: parse one value and
require the input to be exhausted. -/
def parseJson (s : List Char) : Option JVal :=
  match parseVal (jfuel s) s with
  | some (v, []) => some v
  | _ => none

mutual

/-- Fuel-requirement measure of a JSON value for the parser. -/
def jsize : JVal → Nat
  | .jnull => 1
  | .jbool _ => 1
  | .jnum _ => 1
  | .jstr _ => 1
  | .jarr xs => 2 + jsizeL xs
  | .jobj fs => 2 + jsizeF fs

/-- Fuel-requirement measure of an array-element list. -/
def jsizeL : List JVal → Nat
  | [] => 1
  | x :: xs => 2 + jsize x + jsizeL xs

/-- Fuel-requirement measure of an object-field list. -/
def jsizeF : List (List Char × JVal) → Nat
  | [] => 1
  | f :: fs => 2 + jsize f.2 + jsizeF fs

end

/-! ## Generic string and query-string helpers (List Char / String) -/

/-- Does `pre` occur as the leading run of `hay`? -/
def hasLead : List Char → List Char → Bool
  | _, [] => true
  | [], _ :: _ => false
  | a :: as, b :: bs => a = b && hasLead as bs

/-- Substring test, the model of JavaScript `String.includes`. -/
def containsSub (hay needle : List Char) : Bool :=
  if hasLead hay needle then true
  else
    match hay with
    | [] => false
    | _ :: t => containsSub t needle

/-- `String.includes` on Lean strings. -/
def sIncludes (hay needle : String) : Bool := containsSub hay.toList needle.toList

/-- `String.startsWith` on Lean strings. -/
def sHasLead (s pre : String) : Bool := hasLead s.toList pre.toList

/-- `String.endsWith` on Lean strings. -/
def sEndsWith (s suf : String) : Bool := hasLead s.toList.reverse suf.toList.reverse

/-- `String.toLowerCase` on Lean strings. -/
def sLower (s : String) : String := String.mk (s.toList.map Char.toLower)

/-- First value bound to a key in an association list (the model of
`URLSearchParams.get`, which returns the first occurrence). -/
def lookupFirst {α β : Type} [DecidableEq α] : List (α × β) → α → Option β
  | [], _ => none
  | p :: ps, k => if p.1 = k then some p.2 else lookupFirst ps k

/-- Drop every binding of a key. -/
def removeKey {α β : Type} [DecidableEq α] (q : List (α × β)) (k : α) : List (α × β) :=
  q.filter (fun p => p.1 ≠ k)

/-- The model of `URLSearchParams.set`: replace the first binding of the
key in place and drop any later duplicates, or append a new binding at the
end. -/
def setParam {α β : Type} [DecidableEq α] : List (α × β) → α → β → List (α × β)
  | [], k, v => [(k, v)]
  | p :: ps, k, v => if p.1 = k then (k, v) :: removeKey ps k else p :: setParam ps k v

/-- Split a character list on a separator character. -/
def splitOnC (sep : Char) : List Char → List (List Char)
  | [] => [[]]
  | c :: rest =>
    match splitOnC sep rest with
    | [] => [[c]]
    | h :: t => if c = sep then [] :: h :: t else (c :: h) :: t

/-- Query parameters of a rendered URL: the portion after the first
question mark, split on ampersands, each piece split at its first equals
sign. -/
def queryOfUrlChars (cs : List Char) : List (List Char × List Char) :=
  if cs.contains '?' then
    (splitOnC '&' ((cs.dropWhile (· ≠ '?')).drop 1)).map
      (fun p => (p.takeWhile (· ≠ '='), (p.dropWhile (· ≠ '=')).drop 1))
  else []

/-! ## URL model (scheme, host, path, ordered query parameters) -/

/-- The parts of a URL this layer manipulates. -/
structure Urlm where
  scheme : String
  host : String
  path : String
  query : List (String × String)
deriving DecidableEq

/-- Rendered query string without the leading question mark. -/
def renderQuery : List (String × String) → String
  | [] => ""
  | [p] => p.1 ++ "=" ++ p.2
  | p :: q => p.1 ++ "=" ++ p.2 ++ "&" ++ renderQuery q

/-- The model of `URL.toString()`. -/
def serializeUrl (u : Urlm) : String :=
  u.scheme ++ "://" ++ u.host ++ u.path ++
    (match u.query with
     | [] => ""
     | _ => "?" ++ renderQuery u.query)

/-- The model of ECMAScript `encodeURI` for one character (faithful for
ASCII input): alphanumerics and the unescaped/reserved set pass through,
everything else is percent-encoded. -/
def encodeURIChar (c : Char) : List Char :=
  let keep :=
    (48 ≤ c.toNat && c.toNat ≤ 57) || (65 ≤ c.toNat && c.toNat ≤ 90) ||
    (97 ≤ c.toNat && c.toNat ≤ 122) ||
    [';', '/', '?', ':', '@', '&', '=', '+', '$', ',', '-', '_', '.', '!', '~', '*',
      Char.ofNat 39, '(', ')', Char.ofNat 35].contains c
  if keep then [c]
  else ['%', hexChar ((c.toNat / 16) % 16), hexChar (c.toNat % 16)]

/-- The model of ECMAScript `encodeURI` on a character list. -/
def encodeURI : List Char → List Char
  | [] => []
  | c :: cs => encodeURIChar c ++ encodeURI cs

/-! ## JSON-RPC message schema -/

/-- Modelled from the spec: the JSON-RPC message schema
(`JSONRPCMessageSchema` from the protocol SDK, which is not part of this
repository).  Per the spec a message is "a JSON-RPC 2.0 envelope
(`jsonrpc`, `id?`, `method`/`result`/`error`)": the `jsonrpc` field must be
the string "2.0" and the envelope must be a request or notification
(string `method`) or a response (`id` plus `result`) or an error response
(`id` plus an `error` object with numeric `code` and string `message`). -/
def isValidJSONRPC (j : JVal) : Bool :=
  match j with
  | .jobj fs =>
    (match lookupFirst fs "jsonrpc".toList with
     | some (.jstr s) => s = "2.0".toList
     | _ => false) &&
    ((match lookupFirst fs "method".toList with
      | some (.jstr _) => true
      | _ => false) ||
     ((match lookupFirst fs "id".toList with
       | some (.jstr _) => true
       | some (.jnum _) => true
       | _ => false) &&
      ((lookupFirst fs "result".toList).isSome ||
       (match lookupFirst fs "error".toList with
        | some (.jobj e) =>
          (match lookupFirst e "code".toList with
           | some (.jnum _) => true
           | _ => false) &&
          (match lookupFirst e "message".toList with
           | some (.jstr _) => true
           | _ => false)
        | _ => false))))
  | _ => false

/-- The JSON-RPC close notification both transports attempt to send from
`close()`. -/
def closeMsg : JVal :=
  .jobj [("jsonrpc".toList, .jstr "2.0".toList),
         ("method".toList, .jstr "close".toList),
         ("params".toList, .jobj [])]

/-! ## EdgeSSETransport (src/transports/edgeSSE) -/

/-- 4 MiB, `MAXIMUM_MESSAGE_SIZE` in both transport sources. -/
def MAXIMUM_MESSAGE_SIZE : Nat := 4 * 1024 * 1024

/-- One SSE wire frame: `event: <ev>\ndata: <data>\n\n`, as enqueued by
`EdgeSSETransport`. -/
def renderFrame (ev data : List Char) : List Char :=
  "event: ".toList ++ ev ++ '\n' :: "data: ".toList ++ data ++ '\n' :: '\n' :: []

/-- State of an `EdgeSSETransport`: its constructor arguments, whether the
stream controller was initialized, the `closed` flag, and how many times
the `onclose` callback has been invoked. -/
structure SSEState where
  messageUrl : List Char
  sessionId : List Char
  controller : Bool
  closed : Bool
  oncloseCount : Nat
deriving DecidableEq

/-- The `EdgeSSETransport` constructor.  The `ReadableStream` start
callback runs at construction: it stores the controller and enqueues the
retry directive and the session-identifier announcement event. -/
def sseInit (messageUrl sessionId : List Char) : SSEState × List (List Char) :=
  (⟨messageUrl, sessionId, true, false, 0⟩,
   ["retry: 1000\n\n".toList, renderFrame "session".toList sessionId])

/-- `EdgeSSETransport.start()`: fails after close or without a
controller; otherwise emits the `endpoint` event whose data is
`encodeURI(messageUrl + "?sessionId=" + sessionId)` followed by the
`ready` event. -/
def sseStart (s : SSEState) : Except String (SSEState × List (List Char)) :=
  if s.closed then
    .error "SSE transport already closed! If using Server class, note that connect() calls start() automatically."
  else if !s.controller then
    .error "Stream controller not initialized"
  else
    .ok (s, [renderFrame "endpoint".toList
               (encodeURI (s.messageUrl ++ "?sessionId=".toList ++ s.sessionId)),
             renderFrame "ready".toList "true".toList])

/-- `EdgeSSETransport.send(message)`: throws "Not connected" if closed or
without a controller, otherwise enqueues exactly one `message` frame
carrying `JSON.stringify(message)`. -/
def sseSend (s : SSEState) (m : JVal) : Except String (SSEState × List (List Char)) :=
  if s.closed || !s.controller then .error "Not connected"
  else .ok (s, [renderFrame "message".toList (stringify m)])

/-- `EdgeSSETransport`'s private `cleanup()`: stops keep-alive, sets the
`closed` flag and invokes `onclose`. -/
def sseCleanup (s : SSEState) : SSEState :=
  { s with closed := true, oncloseCount := s.oncloseCount + 1 }

/-- `EdgeSSETransport.close()`: when not yet closed, runs `cleanup()`
first, then attempts to `send` the close notification (which fails with
"Not connected" because `cleanup` already set `closed`; the error is
swallowed), then closes the controller and cancels the stream (whose
cancel callback does not run again on a closed controller).  When already
closed it does nothing. -/
def sseClose (s : SSEState) : SSEState × List (List Char) :=
  if !s.closed then
    let s1 := sseCleanup s
    match sseSend s1 closeMsg with
    | .ok (s2, frames) => (s2, frames)
    | .error _ => (s1, [])
  else (s, [])

/-- Result of `EdgeSSETransport.handlePostMessage`: HTTP status and body,
the number of `onerror` invocations, and the message delivered to
`onmessage` if any. -/
structure PostResult where
  status : Nat
  body : String
  errors : Nat
  delivered : Option JVal

/-- `EdgeSSETransport.handlePostMessage(req)`: 500 when closed or without
a controller; otherwise content-type must include `application/json` and
the declared content length (`parseInt(header || '0')`) must not exceed
4 MiB — both checked before the body is parsed; then the body is parsed as
JSON and validated against the JSON-RPC schema by `handleMessage` (which
reports a schema failure to `onerror` and rethrows, so the outer catch
reports it a second time); 202 on success, 400 with the error text on any
failure. -/
def sseHandlePost (s : SSEState) (contentType : Option String)
    (contentLength : Option Nat) (body : List Char) : SSEState × PostResult :=
  if s.closed || !s.controller then
    (s, ⟨500, "SSE connection not established", 0, none⟩)
  else
    if !sIncludes (contentType.getD "") "application/json" then
      (s, ⟨400, "Error: Unsupported content-type: " ++ contentType.getD "", 1, none⟩)
    else if contentLength.getD 0 > MAXIMUM_MESSAGE_SIZE then
      (s, ⟨400, "Error: Request body too large: " ++
             String.mk (natDigits (contentLength.getD 0)) ++ " bytes", 1, none⟩)
    else
      match parseJson body with
      | none => (s, ⟨400, "SyntaxError: Unexpected token in JSON", 1, none⟩)
      | some j =>
        if isValidJSONRPC j then (s, ⟨202, "Accepted", 0, some j⟩)
        else (s, ⟨400, "ZodError: invalid JSON-RPC message", 2, none⟩)

/-- An operation a caller can perform on an `EdgeSSETransport` after
construction. -/
inductive SSEOp where
  | start
  | send (m : JVal)
  | post (ct : Option String) (cl : Option Nat) (body : List Char)
  | close

/-- State transition of one `EdgeSSETransport` operation. -/
def sseStep (s : SSEState) : SSEOp → SSEState
  | .start => match sseStart s with | .ok (s', _) => s' | .error _ => s
  | .send m => match sseSend s m with | .ok (s', _) => s' | .error _ => s
  | .post ct cl b => (sseHandlePost s ct cl b).1
  | .close => (sseClose s).1

/-- State after a sequence of `EdgeSSETransport` operations. -/
def sseSteps (s : SSEState) (ops : List SSEOp) : SSEState := ops.foldl sseStep s

/-! ## WebSocketTransport (src/transports/webSockets) -/

/-- State of a `WebSocketTransport`: the server-side socket's ready state
when a socket exists (1 = OPEN, 3 = CLOSED), the `closed` flag and the
number of `onclose` invocations. -/
structure WSState where
  socket : Option Nat
  closed : Bool
  oncloseCount : Nat
deriving DecidableEq

/-- The `WebSocketTransport` constructor: no socket yet, not closed. -/
def wsInit : WSState := ⟨none, false, 0⟩

/-- `WebSocketTransport.send(message)`: throws "Not connected" unless not
closed, a socket exists and its ready state is OPEN; otherwise sends
exactly one text frame carrying `JSON.stringify(message)`. -/
def wsSend (w : WSState) (m : JVal) : Except String (WSState × List (List Char)) :=
  if w.closed || !(w.socket = some 1 : Bool) then .error "Not connected"
  else .ok (w, [stringify m])

/-- `WebSocketTransport`'s private `cleanup()`. -/
def wsCleanup (w : WSState) : WSState :=
  { w with closed := true, oncloseCount := w.oncloseCount + 1 }

/-- `WebSocketTransport.close()`: only when not closed and a socket
exists, best-effort send of the close notification followed by
`webSocket.close()` (both skipped on a send error, which is swallowed),
then `cleanup()`.  With no socket it does nothing at all. -/
def wsClose (w : WSState) : WSState × List (List Char) :=
  if !w.closed && w.socket.isSome then
    match wsSend w closeMsg with
    | .ok (w1, frames) => (wsCleanup { w1 with socket := some 3 }, frames)
    | .error _ => (wsCleanup w, [])
  else (w, [])

/-- `WebSocketTransport.handleUpgrade(request)`: 426 unless the Upgrade
header lower-cases to `websocket`; otherwise accepts the socket pair,
stores the open server socket and returns the 101 response. -/
def wsHandleUpgrade (w : WSState) (upgradeHeader : Option String) :
    Except (Nat × String) WSState :=
  match upgradeHeader with
  | some u =>
    if sLower u = "websocket" then .ok { w with socket := some 1 }
    else .error (426, "Expected Upgrade: websocket")
  | none => .error (426, "Expected Upgrade: websocket")

/-- An operation a caller can perform on a `WebSocketTransport`. -/
inductive WSOp where
  | start
  | send (m : JVal)
  | close
  | upgrade (hdr : Option String)

/-- State transition of one `WebSocketTransport` operation (`start()` is
a no-op that only throws after close). -/
def wsStep (w : WSState) : WSOp → WSState
  | .start => w
  | .send m => match wsSend w m with | .ok (w', _) => w' | .error _ => w
  | .close => (wsClose w).1
  | .upgrade h => match wsHandleUpgrade w h with | .ok w' => w' | .error _ => w

/-- State after a sequence of `WebSocketTransport` operations. -/
def wsSteps (w : WSState) (ops : List WSOp) : WSState := ops.foldl wsStep w

/-! ## Session router: MCPDurableObject -/

/-- State of an `MCPDurableObject`: its canonical identifier
(`state.id.toString()`) and the lazily created singleton SSE transport. -/
structure DOState where
  id : String
  sse : Option SSEState

/-- `URLSearchParams` copy loop used by `setupSSETransport` and
`setupWSTransport`: every parameter of the source URL is `set` on the
target in order. -/
def copyParams (q : List (String × String)) : List (String × String) :=
  q.foldl (fun acc p => setParam acc p.1 p.2) []

/-- The message-submission URL built by `setupSSETransport`:
`url.origin + "/message"` with every query parameter of the originating
request copied onto it. -/
def mkMessageUrl (u : Urlm) : String :=
  serializeUrl { scheme := u.scheme, host := u.host, path := "/message",
                 query := copyParams u.query }

/-- `setupSSETransport`: reuse the cached SSE transport or create one
with the message URL derived from the request and the object's canonical
identifier as session id.  (The `server.connect` call on the injected
protocol engine is modelled as succeeding.) -/
def ensureSSE (st : DOState) (u : Urlm) : SSEState × DOState :=
  match st.sse with
  | some t => (t, st)
  | none =>
    let (t, _frames) := sseInit (mkMessageUrl u).toList st.id.toList
    (t, { st with sse := some t })

/-- `createCompatibilityUrl(url, endpoint, sessionId)`: origin plus the
endpoint path, all existing query parameters copied, then `sessionId` set
(overriding any existing one). -/
def compatUrl (u : Urlm) (endpoint sessionId : String) : String :=
  serializeUrl { scheme := u.scheme, host := u.host, path := endpoint,
                 query := setParam (copyParams u.query) "sessionId" sessionId }

/-- Query of the discovery-document base URLs: `sessionId` set first,
then every original parameter except `sessionId` copied over. -/
def infoQuery (q : List (String × String)) (id : String) : List (String × String) :=
  (q.filter (fun p => p.1 ≠ "sessionId")).foldl
    (fun acc p => setParam acc p.1 p.2) [("sessionId", id)]

/-- The JSON discovery document built by the root-path JSON branch of
`MCPDurableObject.fetch`. -/
def infoDoc (id : String) (u : Urlm) : JVal :=
  let wsProtocol := if u.scheme = "https" then "wss" else "ws"
  let wsUrl := serializeUrl { scheme := wsProtocol, host := u.host, path := "/",
                              query := infoQuery u.query id }
  let sseUrl := serializeUrl { scheme := u.scheme, host := u.host, path := "/",
                               query := infoQuery u.query id }
  .jobj [("status".toList, .jstr "ready".toList),
         ("message".toList, .jstr "MCP server is running".toList),
         ("sessionId".toList, .jstr id.toList),
         ("transport_options".toList, .jobj
           [("sse".toList, .jobj
              [("info".toList, .jstr "SSE transport with separate POST for messages".toList),
               ("connect".toList, .jstr ("GET " ++ sseUrl ++ " with Accept: text/event-stream header").toList),
               ("send_messages".toList, .jstr ("POST to " ++ sseUrl ++ " with Content-Type: application/json").toList)]),
            ("websocket".toList, .jobj
              [("info".toList, .jstr "WebSocket transport with bidirectional messaging".toList),
               ("connect".toList, .jstr ("Connect to " ++ wsUrl ++ " as WebSocket").toList),
               ("send_messages".toList, .jstr "Send directly through the WebSocket connection".toList)])]),
         ("backward_compatibility".toList, .jobj
           [("sse".toList, .jstr (compatUrl u "/sse" id).toList),
            ("websocket".toList, .jstr (compatUrl u "/ws" id).toList),
            ("message".toList, .jstr (compatUrl u "/message" id).toList)])]

/-- An inbound HTTP request as seen by the session router. -/
structure Reqm where
  method : String
  url : Urlm
  accept : Option String
  upgrade : Option String
  contentType : Option String
  contentLength : Option Nat
  body : String

/-- A response of `MCPDurableObject.fetch`: WebSocket 101 upgrade, 307
redirect with its Location value, the SSE streaming response, a POST
result, the JSON discovery document, or 404. -/
inductive DOResp where
  | ws101
  | redirect307 (location : String)
  | sseStream
  | postR (status : Nat) (body : String)
  | jsonInfo (doc : JVal)
  | notFound

/-- Does a request's Upgrade header lower-case to `websocket`? -/
def isWsRequest (r : Reqm) : Bool :=
  match r.upgrade with
  | some u => sLower u = "websocket"
  | none => false

/-- Does a request's Accept header include `text/event-stream`? -/
def isSSERequest (r : Reqm) : Bool :=
  match r.accept with
  | some a => sIncludes a "text/event-stream"
  | none => false

/-- `MCPDurableObject.fetch(request)`: the dispatch chain over WebSocket
upgrade, SSE (with the 307 session-identifier redirect on a falsy
`urlSessionId`, i.e. absent or empty), POST message submission, JSON
discovery and 404, translated branch for branch.  External engine
connections (`server.connect`) are modelled as succeeding. -/
def doFetch (st : DOState) (r : Reqm) : DOResp × DOState :=
  let pathname := r.url.path
  let isSpecificSse := sEndsWith pathname "/sse"
  let isSpecificWs := sEndsWith pathname "/ws"
  if isWsRequest r && (isSpecificWs || pathname = "/") then
    (.ws101, st)
  else if r.method = "GET" &&
      (isSpecificSse || isSSERequest r || (pathname = "/" && !isWsRequest r)) then
    if (lookupFirst r.url.query "sessionId").getD "" = "" then
      (.redirect307 (serializeUrl
          { r.url with query := setParam r.url.query "sessionId" st.id }), st)
    else
      let (_t, st') := ensureSSE st r.url
      (.sseStream, st')
  else if r.method = "POST" && (sEndsWith pathname "/message" || pathname = "/") then
    let (t, st') := ensureSSE st r.url
    let (t', res) := sseHandlePost t r.contentType r.contentLength r.body.toList
    (.postR res.status res.body, { st' with sse := some t' })
  else if r.method = "GET" && pathname = "/" &&
      (match r.accept with
       | some a => sIncludes a "application/json"
       | none => false) then
    (.jsonInfo (infoDoc st.id r.url), st)
  else
    (.notFound, st)

/-- Is a `DOResp` the JSON discovery document? -/
def isJsonInfo : DOResp → Bool
  | .jsonInfo _ => true
  | _ => false

/-! ## Access gate (MCP constructor's auth middleware) -/

/-- Bearer auth configuration: optional fixed token and optional validate
callback (its possibly-asynchronous result modelled as a Bool). -/
structure AuthCfg where
  token : Option String
  validate : Option (String → Bool)

/-- `authHeader.split(' ')[1]`: the run of characters between the first
and second space. -/
def secondWord (h : String) : String :=
  String.mk (((h.toList.dropWhile (· ≠ ' ')).drop 1).takeWhile (· ≠ ' '))

/-- Candidate token extraction: from the Authorization header when it is
truthy and starts with `Bearer `, else from a truthy `key` query
parameter.  `none` models the JavaScript `token` staying `null`. -/
def tokenOf (authHeader keyParam : Option String) : Option String :=
  let keyTok : Option String :=
    match keyParam with
    | some k => if k ≠ "" then some k else none
    | none => none
  match authHeader with
  | some h => if h ≠ "" && sHasLead h "Bearer " then some (secondWord h) else keyTok
  | none => keyTok

/-- The auth middleware installed by the `MCP` constructor: with bearer
auth configured, extract a candidate token (401 when none is found or it
is the empty string, which is falsy); prefer the validate callback, else
compare against a truthy fixed token; with no auth configured, pass every
request through.  `none` means the request proceeds to routing
unchanged. -/
def authGate (auth : Option AuthCfg) (authHeader keyParam : Option String) :
    Option (Nat × String) :=
  match auth with
  | none => none
  | some a =>
    match tokenOf authHeader keyParam with
    | none => some (401, "Unauthorized - Bearer token required in header or key parameter")
    | some t =>
      if t = "" then
        some (401, "Unauthorized - Bearer token required in header or key parameter")
      else
        match a.validate with
        | some f => if f t then none else some (401, "Unauthorized - Invalid token")
        | none =>
          match a.token with
          | some tok =>
            if tok ≠ "" && t ≠ tok then some (401, "Unauthorized - Invalid token") else none
          | none => none

/-! ## Worker-level route handler (MCP constructor) -/

/-- Identity of a Durable Object target: parsed from a session-identifier
string (`idFromString`) or freshly allocated (`newUniqueId`, modelled by a
monotone counter supplied by the platform). -/
inductive ObjId where
  | fromString (s : String)
  | unique (n : Nat)
deriving DecidableEq

/-- The `app.all('/*')` route handler,
`sessionId ? idFromString(sessionId) : newUniqueId()`: a request with a
truthy (nonempty) `sessionId` query parameter goes to the object with
the id parsed from that string; any other request — no parameter, or an
empty falsy value — goes to a freshly allocated unique id. -/
def routeTarget (q : List (String × String)) (fresh : Nat) : ObjId × Nat :=
  match lookupFirst q "sessionId" with
  | some s => if s = "" then (.unique fresh, fresh + 1) else (.fromString s, fresh)
  | none => (.unique fresh, fresh + 1)

/-- Dispatch a sequence of requests (given by their query-parameter
lists) through the route handler, threading the platform's fresh-id
counter. -/
def dispatchAll : List (List (String × String)) → Nat → List ObjId
  | [], _ => []
  | q :: qs, n =>
    let (i, n') := routeTarget q n
    i :: dispatchAll qs n'

/-! ## SSE frame inspection -/

/-- Everything after the first newline of a character list. -/
def dropLine (cs : List Char) : List Char := (cs.dropWhile (· ≠ '\n')).drop 1

/-- The data payload of a rendered SSE frame: second line, after the
`data: ` marker, up to the newline — how an SSE client reads the frame
back. -/
def sseDataOf (frame : List Char) : Option (List Char) :=
  let rest := dropLine frame
  if hasLead rest "data: ".toList then
    some (((rest.drop 6).takeWhile (· ≠ '\n')))
  else none

/-- A continuation is digit-safe when it does not start with a decimal
digit (so a number serialized before it keeps its boundary). -/
def RestOk (rest : List Char) : Prop :=
  ∀ c, rest.head? = some c → isDig c = false

/-- The freshly allocated identities among a dispatch result. -/
def uniquesOf (l : List ObjId) : List Nat :=
  l.filterMap (fun i => match i with | .unique n => some n | _ => none)

/-! ## Character and digit lemmas -/

theorem char_toNat_ofNat_small {n : Nat} (h : n < 128) : (Char.ofNat n).toNat = n := by
  unfold Char.ofNat
  split
  · show (Char.ofNatAux n _).toNat = n
    simp [Char.ofNatAux, Char.toNat, UInt32.ofNat', UInt32.toNat, BitVec.toNat_ofNatLt]
  · rename_i hn
    exact absurd (Char.isValidChar_of_isValidCharNat n (Or.inl (by omega))) hn

theorem char_ofNat_toNat_small {c : Char} (h : c.toNat < 128) : Char.ofNat c.toNat = c := by
  apply Char.ext
  unfold Char.ofNat
  split
  · show (Char.ofNatAux c.toNat _).val = c.val
    apply UInt32.ext
    simp [Char.ofNatAux, Char.toNat, UInt32.ofNat', UInt32.toNat, BitVec.toNat_ofNatLt]
  · rename_i hn
    exact absurd (Char.isValidChar_of_isValidCharNat c.toNat (Or.inl (by omega))) hn

theorem isDig_digitChar {n : Nat} (h : n < 10) : isDig (digitChar n) = true := by
  have h1 : (Char.ofNat (48 + n)).toNat = 48 + n := char_toNat_ofNat_small (by omega)
  simp [isDig, digitChar, h1]
  omega

theorem digVal_digitChar {n : Nat} (h : n < 10) : digVal (digitChar n) = n := by
  simp only [digVal, digitChar]
  rw [char_toNat_ofNat_small (by omega)]
  omega

theorem isDig_ne {c : Char} (h : isDig c = true) :
    c ≠ ']' ∧ c ≠ Char.ofNat 125 ∧ c ≠ '\n' ∧ c ≠ ',' := by
  refine ⟨?_, ?_, ?_, ?_⟩ <;> (rintro rfl; revert h; decide)

theorem natDigits_all_dig : ∀ n, ∀ c ∈ natDigits n, isDig c = true := by
  intro n
  induction n using Nat.strong_induction_on with
  | _ n ih =>
    intro c hc
    by_cases h : n < 10
    · rw [natDigits, dif_pos h] at hc
      simp at hc
      subst hc
      exact isDig_digitChar h
    · rw [natDigits, dif_neg h] at hc
      rcases List.mem_append.mp hc with h1 | h2
      · exact ih (n / 10) (Nat.div_lt_self (by omega) (by omega)) c h1
      · simp at h2
        subst h2
        exact isDig_digitChar (Nat.mod_lt _ (by omega))

theorem natDigits_ne_nil (n : Nat) : natDigits n ≠ [] := by
  by_cases h : n < 10
  · rw [natDigits, dif_pos h]; simp
  · rw [natDigits, dif_neg h]; simp

theorem natDigits_head (n : Nat) :
    ∃ d ds, natDigits n = d :: ds ∧ isDig d = true := by
  obtain ⟨d, ds, h⟩ := List.exists_cons_of_ne_nil (natDigits_ne_nil n)
  exact ⟨d, ds, h, natDigits_all_dig n d (h ▸ List.mem_cons_self d ds)⟩

theorem parseDigits_stop {rest : List Char} (acc : Nat) (h : RestOk rest) :
    parseDigits rest acc = (acc, rest) := by
  cases rest with
  | nil => rfl
  | cons c cs =>
    have := h c rfl
    simp [parseDigits, this]

theorem parseDigits_append (n : Nat) :
    ∀ acc rest, parseDigits (natDigits n ++ rest) acc =
      parseDigits rest (acc * 10 ^ (natDigits n).length + n) := by
  induction n using Nat.strong_induction_on with
  | _ n ih =>
    intro acc rest
    by_cases h : n < 10
    · rw [natDigits, dif_pos h]
      simp [parseDigits, isDig_digitChar h, digVal_digitChar h]
      congr 1
      omega
    · rw [natDigits, dif_neg h]
      rw [List.append_assoc, ih (n / 10) (Nat.div_lt_self (by omega) (by omega))]
      have hm : n % 10 < 10 := Nat.mod_lt _ (by omega)
      simp [parseDigits, isDig_digitChar hm, digVal_digitChar hm]
      have hdm : 10 * (n / 10) + n % 10 = n := Nat.div_add_mod n 10
      congr 1
      calc 10 * (acc * 10 ^ (natDigits (n / 10)).length + n / 10) + n % 10
          = acc * (10 ^ (natDigits (n / 10)).length * 10) + (10 * (n / 10) + n % 10) := by ring
        _ = acc * 10 ^ ((natDigits (n / 10)).length + 1) + n := by rw [hdm, pow_succ]

/-! ## String escaping round trip -/

theorem hexVal_hexChar {k : Nat} (h : k < 16) : hexVal (hexChar k) = some k := by
  interval_cases k <;> decide

theorem escStr_rt : ∀ (s rest : List Char),
    parseStrBody (escapeStr s ++ Char.ofNat 34 :: rest) = some (s, rest) := by
  intro s
  induction s with
  | nil => intro rest; rw [escapeStr, List.nil_append, parseStrBody.eq_def]; simp +decide
  | cons c cs ih =>
    intro rest
    show parseStrBody ((escapeChar c ++ escapeStr cs) ++ Char.ofNat 34 :: rest) = _
    rw [List.append_assoc, escapeChar]
    split_ifs with h1 h2 h3 h4 h5 h6 h7 h8
    · subst h1
      simp only [List.cons_append, List.nil_append]
      rw [parseStrBody.eq_def]
      simp +decide only [escDecode, ih, if_true, if_false, ite_true, ite_false]
    · subst h2
      simp only [List.cons_append, List.nil_append]
      rw [parseStrBody.eq_def]
      simp +decide only [escDecode, ih, if_true, if_false, ite_true, ite_false]
    · subst h3
      simp only [List.cons_append, List.nil_append]
      rw [parseStrBody.eq_def]
      simp +decide only [escDecode, ih, if_true, if_false, ite_true, ite_false]
    · subst h4
      simp only [List.cons_append, List.nil_append]
      rw [parseStrBody.eq_def]
      simp +decide only [escDecode, ih, if_true, if_false, ite_true, ite_false]
    · subst h5
      simp only [List.cons_append, List.nil_append]
      rw [parseStrBody.eq_def]
      simp +decide only [escDecode, ih, if_true, if_false, ite_true, ite_false]
    · subst h6
      simp only [List.cons_append, List.nil_append]
      rw [parseStrBody.eq_def]
      simp +decide only [escDecode, ih, if_true, if_false, ite_true, ite_false]
    · subst h7
      simp only [List.cons_append, List.nil_append]
      rw [parseStrBody.eq_def]
      simp +decide only [escDecode, ih, if_true, if_false, ite_true, ite_false]
    · have hd : c.toNat / 16 < 16 := by omega
      have hm : c.toNat % 16 < 16 := by omega
      have hrec : Char.ofNat (4096 * 0 + 256 * 0 + 16 * (c.toNat / 16) + c.toNat % 16) = c := by
        have he : 4096 * 0 + 256 * 0 + 16 * (c.toNat / 16) + c.toNat % 16 = c.toNat := by omega
        rw [he]; exact char_ofNat_toNat_small (by omega)
      simp only [List.cons_append, List.nil_append]
      rw [parseStrBody.eq_def]
      simp +decide only [hexVal_hexChar hd, hexVal_hexChar hm,
        show hexVal '0' = some 0 from by decide, ih, hrec, if_true, if_false,
        ite_true, ite_false]
    · have hq : (c = Char.ofNat 34) = False := by simp [h1]
      have hb : (c = Char.ofNat 92) = False := by simp [h2]
      simp only [List.cons_append, List.nil_append]
      rw [parseStrBody.eq_def]
      simp only [hq, hb, if_false, ite_false, ih]
      rw [if_neg h8]

/-! ## Shape lemmas about the serializer -/

theorem sItems_cons (x : JVal) (xs : List JVal) :
    sItems (x :: xs) = stringify x ++ sTail xs := by
  cases xs <;> simp [sItems, sTail]

theorem sFields_cons (f : List Char × JVal) (fs : List (List Char × JVal)) :
    sFields (f :: fs) = sField f ++ sFTail fs := by
  cases fs <;> simp [sFields, sFTail]

theorem stringify_head (v : JVal) :
    ∃ c cs, stringify v = c :: cs ∧ c ≠ ']' ∧ c ≠ Char.ofNat 125 := by
  cases v with
  | jnull => exact ⟨'n', ['u', 'l', 'l'], by simp [stringify], by decide, by decide⟩
  | jbool b =>
    cases b with
    | true => exact ⟨'t', ['r', 'u', 'e'], by simp [stringify], by decide, by decide⟩
    | false => exact ⟨'f', ['a', 'l', 's', 'e'], by simp [stringify], by decide, by decide⟩
  | jnum n =>
    by_cases h : n < 0
    · exact ⟨'-', natDigits n.natAbs, by simp [stringify, intChars, h], by decide, by decide⟩
    · obtain ⟨d, ds, hds, hdig⟩ := natDigits_head n.toNat
      exact ⟨d, ds, by simp [stringify, intChars, h, hds], (isDig_ne hdig).1,
        (isDig_ne hdig).2.1⟩
  | jstr s =>
    exact ⟨Char.ofNat 34, escapeStr s ++ [Char.ofNat 34], by simp [stringify],
      by decide, by decide⟩
  | jarr xs => exact ⟨'[', sItems xs ++ [']'], by simp [stringify], by decide, by decide⟩
  | jobj fs =>
    exact ⟨Char.ofNat 123, sFields fs ++ [Char.ofNat 125], by simp [stringify],
      by decide, by decide⟩

theorem stringify_ne_nil (v : JVal) : stringify v ≠ [] := by
  obtain ⟨c, cs, h, -, -⟩ := stringify_head v
  simp [h]

theorem hexChar_ne_nl {k : Nat} (h : k < 16) : hexChar k ≠ '\n' := by
  interval_cases k <;> decide

theorem escapeChar_noNL (c : Char) : '\n' ∉ escapeChar c := by
  rw [escapeChar]
  split_ifs with h1 h2 h3 h4 h5 h6 h7 h8
  · decide
  · decide
  · decide
  · decide
  · decide
  · decide
  · decide
  · intro hmem
    have hd : c.toNat / 16 < 16 := by omega
    have hm : c.toNat % 16 < 16 := by omega
    simp only [List.mem_cons, List.not_mem_nil, or_false] at hmem
    rcases hmem with h | h | h | h | h | h
    · revert h; decide
    · revert h; decide
    · revert h; decide
    · revert h; decide
    · exact hexChar_ne_nl hd h.symm
    · exact hexChar_ne_nl hm h.symm
  · intro hmem
    simp at hmem
    subst hmem
    exact h8 (by decide)

theorem escapeStr_noNL (s : List Char) : '\n' ∉ escapeStr s := by
  induction s with
  | nil => simp [escapeStr]
  | cons c cs ih =>
    rw [escapeStr]
    intro hmem
    rcases List.mem_append.mp hmem with h | h
    · exact escapeChar_noNL c h
    · exact ih h

theorem natDigits_noNL (n : Nat) : '\n' ∉ natDigits n := by
  intro hmem
  exact (isDig_ne (natDigits_all_dig n _ hmem)).2.2.1 rfl

theorem intChars_noNL (n : Int) : '\n' ∉ intChars n := by
  rw [intChars]
  split_ifs with h
  · intro hmem
    rcases List.mem_cons.mp hmem with h1 | h1
    · revert h1; decide
    · exact natDigits_noNL _ h1
  · exact natDigits_noNL _

theorem jval_sizeOf_pos (v : JVal) : 1 ≤ sizeOf v := by
  cases v <;> simp_arith

theorem stringify_noNL_aux :
    ∀ N, (∀ v : JVal, sizeOf v ≤ N → '\n' ∉ stringify v) := by
  intro N
  induction N with
  | zero => intro v h; have := jval_sizeOf_pos v; omega
  | succ N ih =>
    intro v hv
    have hItems : ∀ xs : List JVal, sizeOf xs ≤ N + 1 →
        (∀ x ∈ xs, sizeOf x ≤ N) → '\n' ∉ sItems xs := by
      intro xs
      induction xs with
      | nil => intro _ _; simp [sItems]
      | cons x xs ihx =>
        intro hsz hmem
        rw [sItems_cons]
        intro hnl
        rcases List.mem_append.mp hnl with h | h
        · exact ih x (hmem x (List.mem_cons_self x xs)) h
        · cases xs with
          | nil => simp [sTail] at h
          | cons y ys =>
            rw [sTail] at h
            rcases List.mem_cons.mp h with h1 | h1
            · revert h1; decide
            · refine ihx ?_ ?_ h1
              · simp_arith at hsz ⊢; omega
              · intro z hz; exact hmem z (List.mem_cons_of_mem x hz)
    have hFields : ∀ fs : List (List Char × JVal), sizeOf fs ≤ N + 1 →
        (∀ f ∈ fs, sizeOf f.2 ≤ N) → '\n' ∉ sFields fs := by
      intro fs
      induction fs with
      | nil => intro _ _; simp [sFields]
      | cons f fs ihf =>
        intro hsz hmem
        rw [sFields_cons]
        intro hnl
        rcases List.mem_append.mp hnl with h | h
        · obtain ⟨k, v2⟩ := f
          rw [sField] at h
          rcases List.mem_cons.mp h with h1 | h1
          · revert h1; decide
          · rcases List.mem_append.mp h1 with h2 | h2
            · exact escapeStr_noNL k h2
            · rcases List.mem_cons.mp h2 with h3 | h3
              · revert h3; decide
              · rcases List.mem_cons.mp h3 with h4 | h4
                · revert h4; decide
                · exact ih v2 (hmem (k, v2) (List.mem_cons_self _ fs)) h4
        · cases fs with
          | nil => simp [sFTail] at h
          | cons g gs =>
            rw [sFTail] at h
            rcases List.mem_cons.mp h with h1 | h1
            · revert h1; decide
            · refine ihf ?_ ?_ h1
              · simp_arith at hsz ⊢; omega
              · intro z hz; exact hmem z (List.mem_cons_of_mem f hz)
    cases v with
    | jnull => simp [stringify]
    | jbool b => cases b <;> simp [stringify]
    | jnum n => exact intChars_noNL n
    | jstr s =>
      rw [stringify]
      intro hnl
      rcases List.mem_cons.mp hnl with h | h
      · revert h; decide
      · rcases List.mem_append.mp h with h1 | h1
        · exact escapeStr_noNL s h1
        · revert h1; decide
    | jarr xs =>
      rw [stringify]
      intro hnl
      rcases List.mem_cons.mp hnl with h | h
      · revert h; decide
      · rcases List.mem_append.mp h with h1 | h1
        · refine hItems xs ?_ ?_ h1
          · simp_arith at hv; omega
          · intro x hx
            have := List.sizeOf_lt_of_mem hx
            simp_arith at hv; omega
        · revert h1; decide
    | jobj fs =>
      rw [stringify]
      intro hnl
      rcases List.mem_cons.mp hnl with h | h
      · revert h; decide
      · rcases List.mem_append.mp h with h1 | h1
        · refine hFields fs ?_ ?_ h1
          · simp_arith at hv; omega
          · intro f hf
            have h2 := List.sizeOf_lt_of_mem hf
            obtain ⟨k, v2⟩ := f
            simp_arith at hv h2 ⊢
            omega
        · revert h1; decide

theorem stringify_noNL (v : JVal) : '\n' ∉ stringify v :=
  stringify_noNL_aux (sizeOf v) v le_rfl

/-! ## Fuel-measure bounds -/

theorem jsize_pos (v : JVal) : 1 ≤ jsize v := by
  cases v <;> (simp [jsize]; try omega)

theorem jsizeL_pos (xs : List JVal) : 1 ≤ jsizeL xs := by
  cases xs <;> (simp [jsizeL]; try omega)

theorem jsizeF_pos (fs : List (List Char × JVal)) : 1 ≤ jsizeF fs := by
  cases fs <;> (simp [jsizeF]; try omega)

theorem jsize_bound :
    ∀ N : Nat,
      (∀ v : JVal, sizeOf v ≤ N → jsize v ≤ 3 * (stringify v).length + 1) ∧
      (∀ xs : List JVal, sizeOf xs ≤ N → jsizeL xs ≤ 3 * (sItems xs).length + 4) ∧
      (∀ fs : List (List Char × JVal), sizeOf fs ≤ N →
        jsizeF fs ≤ 3 * (sFields fs).length + 4) := by
  intro N
  induction N with
  | zero =>
    refine ⟨fun v h => absurd h ?_, fun xs h => absurd h ?_, fun fs h => absurd h ?_⟩
    · have := jval_sizeOf_pos v; omega
    · cases xs <;> simp_arith
    · cases fs <;> simp_arith
  | succ N ih =>
    obtain ⟨ihA, ihB, ihC⟩ := ih
    refine ⟨?_, ?_, ?_⟩
    · intro v hv
      cases v with
      | jnull => simp [jsize]
      | jbool b => simp [jsize]
      | jnum n => simp [jsize]
      | jstr s => simp [jsize]
      | jarr xs =>
        have hxs : sizeOf xs ≤ N := by simp_arith at hv; omega
        have := ihB xs hxs
        simp only [jsize, stringify, List.length_cons, List.length_append,
          List.length_singleton]
        omega
      | jobj fs =>
        have hfs : sizeOf fs ≤ N := by simp_arith at hv; omega
        have := ihC fs hfs
        simp only [jsize, stringify, List.length_cons, List.length_append,
          List.length_singleton]
        omega
    · intro xs hxs
      cases xs with
      | nil => simp [jsizeL, sItems]
      | cons x xs =>
        have hx : sizeOf x ≤ N := by simp_arith at hxs; omega
        have hxs' : sizeOf xs ≤ N := by simp_arith at hxs; omega
        have hA := ihA x hx
        cases xs with
        | nil =>
          simp only [jsizeL, sItems]
          omega
        | cons y ys =>
          have hB : jsizeL (y :: ys) ≤ 3 * (sItems (y :: ys)).length + 4 := ihB _ hxs'
          simp only [jsizeL] at hB ⊢
          simp only [sItems, List.length_append, List.length_cons]
          omega
    · intro fs hfs
      cases fs with
      | nil => simp [jsizeF, sFields]
      | cons f fs =>
        obtain ⟨k, v⟩ := f
        have hv : sizeOf v ≤ N := by simp_arith at hfs; omega
        have hfs' : sizeOf fs ≤ N := by simp_arith at hfs; omega
        have hA := ihA v hv
        have hfl : (sField (k, v)).length = (escapeStr k).length + (stringify v).length + 3 := by
          simp [sField]
          omega
        cases fs with
        | nil =>
          simp only [jsizeF, sFields]
          omega
        | cons g gs =>
          have hC : jsizeF (g :: gs) ≤ 3 * (sFields (g :: gs)).length + 4 := ihC _ hfs'
          simp only [jsizeF] at hC ⊢
          simp only [sFields, List.length_append, List.length_cons]
          have : (sField (k, v) ++ ',' :: sFields (g :: gs)).length =
              (sField (k, v)).length + 1 + (sFields (g :: gs)).length := by
            simp
            omega
          omega

theorem jsize_le_fuel (v : JVal) : jsize v ≤ jfuel (stringify v) := by
  have := (jsize_bound (sizeOf v)).1 v le_rfl
  simp only [jfuel]
  omega

/-! ## Parser round trip -/

theorem restOk_nil : RestOk [] := by intro c hc; simp at hc

theorem restOk_sTail (xs : List JVal) (rest : List Char) :
    RestOk (sTail xs ++ ']' :: rest) := by
  cases xs with
  | nil => intro c hc; simp [sTail] at hc; subst hc; decide
  | cons y ys => intro c hc; simp [sTail] at hc; subst hc; decide

theorem restOk_sFTail (fs : List (List Char × JVal)) (rest : List Char) :
    RestOk (sFTail fs ++ Char.ofNat 125 :: rest) := by
  cases fs with
  | nil => intro c hc; simp [sFTail] at hc; subst hc; decide
  | cons g gs => intro c hc; simp [sFTail] at hc; subst hc; decide

theorem parse_rt : ∀ f : Nat,
    (∀ (v : JVal) (rest : List Char), jsize v ≤ f → RestOk rest →
      parseVal f (stringify v ++ rest) = some (v, rest)) ∧
    (∀ (xs : List JVal) (rest : List Char), jsizeL xs ≤ f →
      parseATail f (sTail xs ++ ']' :: rest) = some (xs, rest)) ∧
    (∀ (fs : List (List Char × JVal)) (rest : List Char), jsizeF fs ≤ f →
      parseOTail f (sFTail fs ++ Char.ofNat 125 :: rest) = some (fs, rest)) ∧
    (∀ (k : List Char) (v : JVal) (rest : List Char), jsize v ≤ f → RestOk rest →
      parseField f (sField (k, v) ++ rest) = some ((k, v), rest)) := by
  intro f
  induction f with
  | zero =>
    refine ⟨fun v rest h _ => ?_, fun xs rest h => ?_, fun fs rest h => ?_,
      fun k v rest h _ => ?_⟩
    · have := jsize_pos v; omega
    · have := jsizeL_pos xs; omega
    · have := jsizeF_pos fs; omega
    · have := jsize_pos v; omega
  | succ f ih =>
    obtain ⟨ihV, ihA, ihO, ihF⟩ := ih
    have hV : ∀ (v : JVal) (rest : List Char), jsize v ≤ f + 1 → RestOk rest →
        parseVal (f + 1) (stringify v ++ rest) = some (v, rest) := by
      intro v rest hsz hrest
      cases v with
      | jnull =>
        simp only [stringify, List.cons_append, List.nil_append]
        rw [parseVal.eq_def]
        simp +decide
      | jbool b =>
        cases b <;>
          (simp only [stringify, List.cons_append, List.nil_append]
           rw [parseVal.eq_def]
           simp +decide)
      | jnum n =>
        by_cases hneg : n < 0
        · obtain ⟨d, ds, hds, hdig⟩ := natDigits_head n.natAbs
          simp only [stringify, intChars, if_pos hneg, hds, List.cons_append]
          rw [parseVal.eq_def]
          simp +decide only [hdig, if_true, ite_true, if_false, ite_false]
          rw [show (d :: (ds ++ rest)) = natDigits n.natAbs ++ rest from by
            rw [hds]; simp]
          rw [parseDigits_append, parseDigits_stop _ hrest]
          have hval : -((n.natAbs : Int)) = n := by omega
          simp only [zero_mul, zero_add, hval]
        · obtain ⟨d, ds, hds, hdig⟩ := natDigits_head n.toNat
          simp only [stringify, intChars, if_neg hneg, hds, List.cons_append]
          rw [parseVal.eq_def]
          simp +decide only [hdig, if_true, ite_true, if_false, ite_false]
          rw [show (d :: (ds ++ rest)) = natDigits n.toNat ++ rest from by
            rw [hds]; simp]
          rw [parseDigits_append, parseDigits_stop _ hrest]
          have hval : ((n.toNat : Int)) = n := by omega
          simp only [zero_mul, zero_add, hval]
      | jstr s =>
        simp only [stringify, List.cons_append, List.append_assoc, List.singleton_append,
          List.nil_append]
        rw [parseVal.eq_def]
        simp +decide only [escStr_rt, if_true, ite_true, if_false, ite_false]
      | jarr xs =>
        cases xs with
        | nil =>
          simp only [stringify, sItems, List.cons_append, List.nil_append,
            List.singleton_append]
          rw [parseVal.eq_def]
          simp +decide
        | cons x xs =>
          have hx : jsize x ≤ f := by simp [jsize, jsizeL] at hsz; omega
          have hxs : jsizeL xs ≤ f := by simp [jsize, jsizeL] at hsz; omega
          have hro : RestOk (sTail xs ++ ']' :: rest) := restOk_sTail xs rest
          obtain ⟨c0, cs0, hc0, hne, -⟩ := stringify_head x
          have hhd : ((stringify x ++ (sTail xs ++ ']' :: rest)).head? = some ']') = False := by
            rw [hc0]
            simp [hne]
          simp only [stringify, sItems_cons, List.cons_append, List.append_assoc,
            List.singleton_append, List.nil_append]
          rw [parseVal.eq_def]
          simp +decide only [hhd, ihV x _ hx hro, ihA xs rest hxs, if_true, ite_true,
            if_false, ite_false]
      | jobj fs =>
        cases fs with
        | nil =>
          simp only [stringify, sFields, List.cons_append, List.nil_append,
            List.singleton_append]
          rw [parseVal.eq_def]
          simp +decide
        | cons g gs =>
          obtain ⟨k, v2⟩ := g
          have hv2 : jsize v2 ≤ f := by simp [jsize, jsizeF] at hsz; omega
          have hgs : jsizeF gs ≤ f := by simp [jsize, jsizeF] at hsz; omega
          have hro : RestOk (sFTail gs ++ Char.ofNat 125 :: rest) := restOk_sFTail gs rest
          have hhd : ((sField (k, v2) ++ (sFTail gs ++ Char.ofNat 125 :: rest)).head? =
              some (Char.ofNat 125)) = False := by
            rw [sField]
            simp +decide
          simp only [stringify, sFields_cons, List.cons_append, List.append_assoc,
            List.singleton_append, List.nil_append]
          rw [parseVal.eq_def]
          simp +decide only [hhd, ihF k v2 _ hv2 hro, ihO gs rest hgs, if_true, ite_true,
            if_false, ite_false]
    have hF : ∀ (k : List Char) (v : JVal) (rest : List Char), jsize v ≤ f + 1 →
        RestOk rest → parseField (f + 1) (sField (k, v) ++ rest) = some ((k, v), rest) := by
      intro k v rest hsz hrest
      rw [sField]
      simp only [List.cons_append, List.append_assoc, List.singleton_append,
        List.nil_append]
      rw [parseField.eq_def]
      simp +decide only [if_true, ite_true, if_false, ite_false]
      rw [show Char.ofNat 34 :: ':' :: (stringify v ++ rest) =
        Char.ofNat 34 :: (':' :: (stringify v ++ rest)) from rfl]
      rw [escStr_rt k (':' :: (stringify v ++ rest))]
      simp only [hV v rest hsz hrest]
    refine ⟨hV, ?_, ?_, hF⟩
    · intro xs rest hsz
      cases xs with
      | nil =>
        simp only [sTail, List.nil_append]
        rw [parseATail.eq_def]
        simp
      | cons y ys =>
        have hy : jsize y ≤ f := by simp [jsizeL] at hsz; omega
        have hys : jsizeL ys ≤ f := by simp [jsizeL] at hsz; omega
        rw [show sTail (y :: ys) = ',' :: sItems (y :: ys) from rfl, sItems_cons]
        simp only [List.cons_append, List.append_assoc, List.singleton_append,
          List.nil_append]
        rw [parseATail.eq_def]
        simp +decide only [ihV y _ hy (restOk_sTail ys rest), ihA ys rest hys,
          if_true, ite_true, if_false, ite_false]
    · intro fs rest hsz
      cases fs with
      | nil =>
        simp only [sFTail, List.nil_append]
        rw [parseOTail.eq_def]
        simp +decide
      | cons g gs =>
        obtain ⟨k, v2⟩ := g
        have hv2 : jsize v2 ≤ f := by simp [jsizeF] at hsz; omega
        have hgs : jsizeF gs ≤ f := by simp [jsizeF] at hsz; omega
        rw [show sFTail ((k, v2) :: gs) = ',' :: sFields ((k, v2) :: gs) from rfl,
          sFields_cons]
        simp only [List.cons_append, List.append_assoc, List.singleton_append,
          List.nil_append]
        rw [parseOTail.eq_def]
        simp +decide only [ihF k v2 _ hv2 (restOk_sFTail gs rest), ihO gs rest hgs,
          if_true, ite_true, if_false, ite_false]

theorem parseJson_stringify (v : JVal) : parseJson (stringify v) = some v := by
  have h := (parse_rt (jfuel (stringify v))).1 v [] (jsize_le_fuel v) restOk_nil
  rw [List.append_nil] at h
  rw [parseJson, h]

/-! ## SSE frame data extraction -/

theorem dropWhile_append_all {p : Char → Bool} {l r : List Char}
    (h : ∀ c ∈ l, p c = true) : (l ++ r).dropWhile p = r.dropWhile p := by
  induction l with
  | nil => simp
  | cons c cs ih =>
    simp only [List.cons_append, List.dropWhile_cons, h c (List.mem_cons_self c cs),
      if_true, ite_true]
    exact ih (fun x hx => h x (List.mem_cons_of_mem c hx))

theorem takeWhile_append_all {p : Char → Bool} {l r : List Char}
    (h : ∀ c ∈ l, p c = true) : (l ++ r).takeWhile p = l ++ r.takeWhile p := by
  induction l with
  | nil => simp
  | cons c cs ih =>
    simp only [List.cons_append, List.takeWhile_cons, h c (List.mem_cons_self c cs),
      if_true, ite_true, List.cons.injEq, true_and]
    exact ih (fun x hx => h x (List.mem_cons_of_mem c hx))

theorem hasLead_append (pre l : List Char) : hasLead (pre ++ l) pre = true := by
  induction pre with
  | nil => cases l <;> rfl
  | cons c cs ih => simpa [hasLead] using ih

theorem sseDataOf_renderFrame {ev data : List Char}
    (he : '\n' ∉ ev) (hd : '\n' ∉ data) :
    sseDataOf (renderFrame ev data) = some data := by
  have hsh : renderFrame ev data =
      ("event: ".toList ++ ev) ++ ('\n' :: ("data: ".toList ++ (data ++ ['\n', '\n']))) := by
    simp [renderFrame]
  have hfix : ∀ c ∈ "event: ".toList, (decide (c ≠ '\n')) = true := by decide
  have hall : ∀ c ∈ "event: ".toList ++ ev, (decide (c ≠ '\n')) = true := by
    intro c hc
    rcases List.mem_append.mp hc with h | h
    · exact hfix c h
    · simp
      exact fun heq => he (heq ▸ h)
  have hline : dropLine (renderFrame ev data) = "data: ".toList ++ (data ++ ['\n', '\n']) := by
    rw [dropLine, hsh, dropWhile_append_all hall]
    simp [List.dropWhile_cons]
  rw [sseDataOf]
  simp only [hline]
  rw [if_pos (hasLead_append "data: ".toList (data ++ ['\n', '\n']))]
  rw [show ("data: ".toList ++ (data ++ ['\n', '\n'])).drop 6 = data ++ ['\n', '\n'] from by
    rw [show (6 : Nat) = ("data: ".toList).length from by decide]
    exact List.drop_left _ _]
  have hall2 : ∀ c ∈ data, (decide (c ≠ '\n')) = true := by
    intro c hc
    simp
    exact fun heq => hd (heq ▸ hc)
  rw [takeWhile_append_all hall2]
  simp [List.takeWhile_cons]

/-! ## Query-parameter and URI lemmas -/

theorem setParam_of_absent {α β : Type} [DecidableEq α] :
    ∀ (q : List (α × β)) (k : α) (v : β), lookupFirst q k = none →
      setParam q k v = q ++ [(k, v)] := by
  intro q k v h
  induction q with
  | nil => rfl
  | cons p ps ih =>
    rw [lookupFirst] at h
    split at h
    · exact absurd h (by simp)
    · rename_i hne
      rw [setParam, if_neg hne, ih h]
      rfl

theorem lookupFirst_append_self {α β : Type} [DecidableEq α] :
    ∀ (q : List (α × β)) (k : α) (v : β), lookupFirst q k = none →
      lookupFirst (q ++ [(k, v)]) k = some v := by
  intro q k v h
  induction q with
  | nil => simp [lookupFirst]
  | cons p ps ih =>
    rw [lookupFirst] at h
    split at h
    · exact absurd h (by simp)
    · rename_i hne
      rw [List.cons_append, lookupFirst, if_neg hne]
      exact ih h

theorem encodeURI_plain : ∀ s : List Char, (∀ c ∈ s, encodeURIChar c = [c]) →
    encodeURI s = s := by
  intro s h
  induction s with
  | nil => rfl
  | cons c cs ih =>
    rw [encodeURI, h c (List.mem_cons_self c cs), ih (fun x hx => h x (List.mem_cons_of_mem c hx))]
    rfl

theorem splitOnC_no_sep {sep : Char} : ∀ l : List Char, sep ∉ l →
    splitOnC sep l = [l] := by
  intro l h
  induction l with
  | nil => rfl
  | cons c cs ih =>
    have hne : c ≠ sep := by rintro rfl; exact h (List.mem_cons_self _ _)
    rw [splitOnC, ih (fun hx => h (List.mem_cons_of_mem c hx))]
    simp [hne]

/-! ## Transport state lemmas -/

theorem sseHandlePost_state (s : SSEState) (ct : Option String) (cl : Option Nat)
    (body : List Char) : (sseHandlePost s ct cl body).1 = s := by
  rw [sseHandlePost]
  by_cases h1 : (s.closed || !s.controller) = true
  · rw [if_pos h1]
  · rw [if_neg h1]
    by_cases h2 : (!sIncludes (ct.getD "") "application/json") = true
    · rw [if_pos h2]
    · rw [if_neg h2]
      by_cases h3 : cl.getD 0 > MAXIMUM_MESSAGE_SIZE
      · rw [if_pos h3]
      · rw [if_neg h3]
        cases parseJson body with
        | none => rfl
        | some j =>
          by_cases h4 : isValidJSONRPC j = true
          · simp only [h4, if_true, ite_true]
          · simp only [h4, if_false, ite_false, Bool.false_eq_true]

theorem sseStep_of_closed {s : SSEState} (hc : s.closed = true) (op : SSEOp) :
    sseStep s op = s := by
  cases op with
  | start =>
    rw [sseStep, sseStart, if_pos hc]
  | send m =>
    rw [sseStep, sseSend]
    simp [hc]
  | post ct cl b => exact sseHandlePost_state s ct cl b
  | close =>
    rw [sseStep, sseClose]
    simp [hc]

theorem sseSteps_of_closed {s : SSEState} (hc : s.closed = true) (ops : List SSEOp) :
    (sseSteps s ops).closed = true := by
  induction ops with
  | nil => exact hc
  | cons op ops ih =>
    rw [sseSteps, List.foldl_cons, sseStep_of_closed hc]
    exact ih

theorem wsStep_closed {w : WSState} (hc : w.closed = true) (op : WSOp) :
    (wsStep w op).closed = true := by
  cases op with
  | start => exact hc
  | send m =>
    rw [wsStep, wsSend]
    simp [hc]
  | close =>
    rw [wsStep, wsClose]
    simp [hc]
  | upgrade h =>
    rw [wsStep, wsHandleUpgrade.eq_def]
    cases h with
    | none => exact hc
    | some u =>
      dsimp only
      split_ifs <;> simp [hc]

theorem wsSteps_closed {w : WSState} (hc : w.closed = true) (ops : List WSOp) :
    (wsSteps w ops).closed = true := by
  induction ops generalizing w with
  | nil => exact hc
  | cons op ops ih =>
    rw [wsSteps, List.foldl_cons]
    exact ih (wsStep_closed hc op)

theorem sseClose_unclosed {s : SSEState} (hc : s.closed = false) :
    sseClose s = (⟨s.messageUrl, s.sessionId, s.controller, true, s.oncloseCount + 1⟩, []) := by
  rw [sseClose]
  simp only [hc, Bool.not_false, if_true, ite_true]
  rw [show sseCleanup s = ⟨s.messageUrl, s.sessionId, s.controller, true, s.oncloseCount + 1⟩
    from rfl]
  rw [sseSend]
  simp

theorem wsClose_unclosed_with_socket {w : WSState} (hc : w.closed = false)
    (hs : w.socket.isSome = true) :
    (wsClose w).1.closed = true ∧ (wsClose w).1.oncloseCount = w.oncloseCount + 1 := by
  rw [wsClose]
  simp only [hc, Bool.not_false, hs, Bool.true_and, if_true, ite_true]
  rw [wsSend]
  by_cases hw : w.socket = some 1
  · simp [hc, hw, wsCleanup]
  · have : (w.socket = some 1 : Bool) = false := by simp [hw]
    simp [hc, this, wsCleanup]

/-! ## Claim theorems -/

/-- C3 counterexample: with auth `{type: 'bearer'}` and neither `token`
nor `validate` set, a request carrying no Authorization header and no
`key` query parameter is answered 401 — the gate is not a no-op. -/
theorem C3_counterexample :
    authGate (some ⟨none, none⟩) none none =
      some (401, "Unauthorized - Bearer token required in header or key parameter") := rfl

/-- C3 (corrected): with bearer auth configured and neither a fixed token
nor a validate callback, the gate passes through exactly the requests
presenting some nonempty candidate token (any value is accepted), and
answers 401 whenever no nonempty token is found in the Authorization
header or the `key` query parameter. -/
theorem C3_bearer_no_config :
    ∀ (hdr key : Option String),
      (tokenOf hdr key = none →
        authGate (some ⟨none, none⟩) hdr key =
          some (401, "Unauthorized - Bearer token required in header or key parameter")) ∧
      (tokenOf hdr key = some "" →
        authGate (some ⟨none, none⟩) hdr key =
          some (401, "Unauthorized - Bearer token required in header or key parameter")) ∧
      (∀ t, tokenOf hdr key = some t → t ≠ "" →
        authGate (some ⟨none, none⟩) hdr key = none) := by
  intro hdr key
  refine ⟨fun h => ?_, fun h => ?_, fun t h ht => ?_⟩
  · rw [authGate, h]
  · rw [authGate, h]
    simp
  · rw [authGate, h]
    simp [ht]

/-- C3 witness. -/
theorem C3_bearer_no_config_witness :
    tokenOf (some "Bearer anything") none = some "anything" ∧
    authGate (some ⟨none, none⟩) (some "Bearer anything") none = none :=
  ⟨by decide, (C3_bearer_no_config (some "Bearer anything") none).2.2 "anything"
    (by decide) (by decide)⟩

/-- C6: on both transports, `send` while closed or without an open
underlying channel fails with exactly the error "Not connected" and, the
result being an error, emits no wire frame. -/
theorem C6_send_not_connected :
    ∀ (m : JVal) (s : SSEState) (w : WSState),
      (s.closed = true ∨ s.controller = false →
        sseSend s m = .error "Not connected") ∧
      (w.closed = true ∨ w.socket ≠ some 1 →
        wsSend w m = .error "Not connected") := by
  intro m s w
  constructor
  · intro h
    rw [sseSend]
    rcases h with h | h <;> simp [h]
  · intro h
    rw [wsSend]
    rcases h with h | h <;> simp [h]

/-- C6 witness. -/
theorem C6_send_not_connected_witness :
    sseSend ⟨[], [], true, true, 1⟩ JVal.jnull = .error "Not connected" ∧
    wsSend wsInit JVal.jnull = .error "Not connected" :=
  ⟨(C6_send_not_connected JVal.jnull ⟨[], [], true, true, 1⟩ wsInit).1 (Or.inl rfl),
   (C6_send_not_connected JVal.jnull ⟨[], [], true, true, 1⟩ wsInit).2 (Or.inr (by decide))⟩

/-- C10: `handlePostMessage` on a closed (or controllerless) SSE
transport returns 500 with body "SSE connection not established", invokes
no error callback, leaves the state unchanged and never looks at the
request body (the result is the same fixed value for every body). -/
theorem C10_post_not_established :
    ∀ (s : SSEState) (ct : Option String) (cl : Option Nat) (body : List Char),
      s.closed = true ∨ s.controller = false →
      sseHandlePost s ct cl body = (s, ⟨500, "SSE connection not established", 0, none⟩) := by
  intro s ct cl body h
  rw [sseHandlePost]
  rcases h with h | h <;> simp [h]

/-- C10 witness. -/
theorem C10_post_not_established_witness :
    sseHandlePost ⟨[], [], true, true, 0⟩ (some "application/json") none "{}".toList =
      (⟨[], [], true, true, 0⟩, ⟨500, "SSE connection not established", 0, none⟩) :=
  C10_post_not_established ⟨[], [], true, true, 0⟩ (some "application/json") none
    "{}".toList (Or.inl rfl)

/-- C9: at the worker route handler, a request with a truthy (nonempty)
`sessionId` parameter is dispatched to the object whose id is parsed
from that string, and only such a request ever reaches an existing
object; a request without a `sessionId` parameter — or with the
JavaScript-falsy empty value — gets a freshly allocated unique id, and
across any request sequence the freshly allocated ids are pairwise
distinct (each at least the current counter), so two such requests never
reach the same session object. -/
theorem C9_worker_routing :
    (∀ (q : List (String × String)) (n : Nat) (s : String),
      lookupFirst q "sessionId" = some s → s ≠ "" →
      routeTarget q n = (.fromString s, n)) ∧
    (∀ (q : List (String × String)) (n : Nat),
      lookupFirst q "sessionId" = none ∨ lookupFirst q "sessionId" = some "" →
      routeTarget q n = (.unique n, n + 1)) ∧
    (∀ (q : List (String × String)) (n n' : Nat) (s : String),
      routeTarget q n = (.fromString s, n') →
      lookupFirst q "sessionId" = some s ∧ s ≠ "" ∧ n' = n) ∧
    (∀ (qs : List (List (String × String))) (n : Nat),
      (uniquesOf (dispatchAll qs n)).Nodup ∧
      ∀ m ∈ uniquesOf (dispatchAll qs n), n ≤ m) := by
  have hcases : ∀ (q : List (String × String)) (n : Nat),
      routeTarget q n = (.unique n, n + 1) ∨
      ∃ s, s ≠ "" ∧ routeTarget q n = (.fromString s, n) := by
    intro q n
    rw [routeTarget]
    cases hl : lookupFirst q "sessionId" with
    | none => exact Or.inl rfl
    | some t =>
      by_cases ht : t = ""
      · subst ht
        exact Or.inl (by simp)
      · exact Or.inr ⟨t, ht, by simp [ht]⟩
  refine ⟨?_, ?_, ?_, ?_⟩
  · intro q n s h hs
    rw [routeTarget, h]
    simp [hs]
  · intro q n h
    rcases h with h | h <;> (rw [routeTarget, h]; try simp)
  · intro q n n' s h
    rw [routeTarget] at h
    cases hl : lookupFirst q "sessionId" with
    | none =>
      rw [hl] at h
      exact absurd h (by simp)
    | some t =>
      rw [hl] at h
      by_cases ht : t = ""
      · subst ht
        simp at h
      · simp only [ht, if_false, ite_false, Prod.mk.injEq, ObjId.fromString.injEq] at h
        obtain ⟨rfl, rfl⟩ := h
        exact ⟨rfl, ht, rfl⟩
  · intro qs
    induction qs with
    | nil => intro n; simp [dispatchAll, uniquesOf]
    | cons q qs ih =>
      intro n
      rcases hcases q n with h | ⟨s, hs, h⟩
      · rw [dispatchAll, h]
        dsimp only
        rw [show uniquesOf (ObjId.unique n :: dispatchAll qs (n + 1)) =
          n :: uniquesOf (dispatchAll qs (n + 1)) from by simp [uniquesOf]]
        obtain ⟨hnd, hge⟩ := ih (n + 1)
        refine ⟨List.nodup_cons.mpr ⟨fun hmem => ?_, hnd⟩, ?_⟩
        · have := hge n hmem
          omega
        · intro m hm
          rcases List.mem_cons.mp hm with rfl | hm
          · omega
          · have := hge m hm
            omega
      · rw [dispatchAll, h]
        dsimp only
        rw [show uniquesOf (ObjId.fromString s :: dispatchAll qs n) =
          uniquesOf (dispatchAll qs n) from by simp [uniquesOf]]
        exact ih n

/-- C9 witness. -/
theorem C9_worker_routing_witness :
    routeTarget [("sessionId", "abc")] 5 = (.fromString "abc", 5) ∧
    routeTarget [("other", "x")] 5 = (.unique 5, 6) ∧
    routeTarget [("sessionId", "")] 5 = (.unique 5, 6) :=
  ⟨C9_worker_routing.1 [("sessionId", "abc")] 5 "abc" (by decide) (by decide),
   C9_worker_routing.2.1 [("other", "x")] 5 (Or.inl (by decide)),
   C9_worker_routing.2.1 [("sessionId", "")] 5 (Or.inr (by decide))⟩

/-- C7 counterexample: a `WebSocketTransport` that never received an
upgrade refutes the claim — `close()` (called twice) completes but the
`onclose` callback fires zero times, the transport never becomes closed,
and a later `handleUpgrade` re-opens it so that `send` succeeds after
`close()` has completed. -/
theorem C7_counterexample :
    (wsClose (wsClose wsInit).1).1.oncloseCount = 0 ∧
    (wsClose wsInit).1.closed = false ∧
    wsHandleUpgrade (wsClose wsInit).1 (some "websocket") = .ok ⟨some 1, false, 0⟩ ∧
    wsSend ⟨some 1, false, 0⟩ JVal.jnull = .ok (⟨some 1, false, 0⟩, [stringify JVal.jnull]) :=
  ⟨rfl, rfl, by simp +decide [wsHandleUpgrade, wsClose, wsInit, sLower], rfl⟩

/-- C7 (corrected): closing is terminal and idempotent with onclose
firing exactly once for every `EdgeSSETransport`, and for every
`WebSocketTransport` that has an underlying socket; a socketless
WebSocket transport's `close()` is a complete no-op (it neither marks the
transport closed nor fires onclose).  Once the closed flag is set, no
sequence of further operations re-opens either transport. -/
theorem C7_close_terminal :
    (∀ (s : SSEState) (ops : List SSEOp), s.closed = true → (sseSteps s ops).closed = true) ∧
    (∀ s : SSEState, s.closed = false →
      (sseClose s).1.closed = true ∧
      (sseClose s).1.oncloseCount = s.oncloseCount + 1 ∧
      (sseClose (sseClose s).1).1.oncloseCount = s.oncloseCount + 1) ∧
    (∀ (w : WSState) (ops : List WSOp), w.closed = true → (wsSteps w ops).closed = true) ∧
    (∀ w : WSState, w.closed = false → w.socket.isSome = true →
      (wsClose w).1.closed = true ∧
      (wsClose w).1.oncloseCount = w.oncloseCount + 1 ∧
      (wsClose (wsClose w).1).1.oncloseCount = w.oncloseCount + 1) ∧
    (∀ w : WSState, w.socket = none → wsClose w = (w, [])) := by
  refine ⟨fun s ops h => sseSteps_of_closed h ops, ?_, fun w ops h => wsSteps_closed h ops,
    ?_, ?_⟩
  · intro s hc
    rw [sseClose_unclosed hc]
    refine ⟨rfl, rfl, ?_⟩
    rw [sseClose]
    simp
  · intro w hc hs
    obtain ⟨h1, h2⟩ := wsClose_unclosed_with_socket hc hs
    refine ⟨h1, h2, ?_⟩
    rw [wsClose, if_neg (by simp [h1])]
    exact h2
  · intro w hs
    rw [wsClose]
    simp [hs]

/-- C7 witness. -/
theorem C7_close_terminal_witness :
    (sseSteps ⟨[], [], true, true, 1⟩ [SSEOp.close, SSEOp.start]).closed = true ∧
    (sseClose ⟨[], [], true, false, 0⟩).1.oncloseCount = 1 ∧
    (wsClose ⟨some 1, false, 0⟩).1.oncloseCount = 1 :=
  ⟨C7_close_terminal.1 ⟨[], [], true, true, 1⟩ [SSEOp.close, SSEOp.start] rfl,
   (C7_close_terminal.2.1 ⟨[], [], true, false, 0⟩ rfl).2.1,
   (C7_close_terminal.2.2.2.1 ⟨some 1, false, 0⟩ rfl rfl).2.1⟩

/-- C8: on an open transport, `send(m)` for a valid JSON-RPC message `m`
produces exactly one wire frame — one SSE `message` event frame for the
SSE transport, one text frame for the WebSocket transport — whose data
payload is exactly `JSON.stringify(m)`, and deserializing that payload
yields a message deep-equal to `m` (round-trip identity). -/
theorem C8_send_roundtrip :
    ∀ (m : JVal) (s : SSEState) (w : WSState),
      isValidJSONRPC m = true →
      s.closed = false → s.controller = true →
      w.closed = false → w.socket = some 1 →
      sseSend s m = .ok (s, [renderFrame "message".toList (stringify m)]) ∧
      sseDataOf (renderFrame "message".toList (stringify m)) = some (stringify m) ∧
      wsSend w m = .ok (w, [stringify m]) ∧
      parseJson (stringify m) = some m := by
  intro m s w hval hc hctrl hwc hws
  refine ⟨?_, ?_, ?_, parseJson_stringify m⟩
  · rw [sseSend]
    simp [hc, hctrl]
  · exact sseDataOf_renderFrame (by decide) (stringify_noNL m)
  · rw [wsSend]
    simp [hwc, hws]

/-- C8 witness. -/
theorem C8_send_roundtrip_witness :
    isValidJSONRPC (JVal.jobj [("jsonrpc".toList, JVal.jstr "2.0".toList),
      ("method".toList, JVal.jstr "ping".toList)]) = true ∧
    (⟨[], [], true, false, 0⟩ : SSEState).closed = false ∧
    parseJson (stringify (JVal.jobj [("jsonrpc".toList, JVal.jstr "2.0".toList),
        ("method".toList, JVal.jstr "ping".toList)])) =
      some (JVal.jobj [("jsonrpc".toList, JVal.jstr "2.0".toList),
        ("method".toList, JVal.jstr "ping".toList)]) :=
  ⟨by decide, rfl,
   (C8_send_roundtrip
      (JVal.jobj [("jsonrpc".toList, JVal.jstr "2.0".toList),
        ("method".toList, JVal.jstr "ping".toList)])
      ⟨[], [], true, false, 0⟩ ⟨some 1, false, 0⟩
      (by decide) rfl rfl rfl rfl).2.2.2⟩

/-- C5: on an open SSE transport, `handlePostMessage` returns 202 exactly
when the content type includes `application/json`, the declared content
length is at most 4 MiB and the body parses as JSON validating against
the JSON-RPC schema; every other request gets 400, failures invoke the
error callback at least once, the transport state is left unchanged (so
it stays open and reusable), and wrong-content-type or oversize requests
are answered with a fixed response that does not depend on the body (they
are rejected before any parsing). -/
theorem C5_handle_post :
    ∀ (s : SSEState) (ct : Option String) (cl : Option Nat) (body : List Char),
      s.closed = false → s.controller = true →
      (((sseHandlePost s ct cl body).2.status = 202) ↔
        (sIncludes (ct.getD "") "application/json" = true ∧
         cl.getD 0 ≤ MAXIMUM_MESSAGE_SIZE ∧
         ∃ j, parseJson body = some j ∧ isValidJSONRPC j = true)) ∧
      ((sseHandlePost s ct cl body).2.status = 202 ∨
        (sseHandlePost s ct cl body).2.status = 400) ∧
      ((sseHandlePost s ct cl body).2.status = 400 →
        1 ≤ (sseHandlePost s ct cl body).2.errors) ∧
      ((sseHandlePost s ct cl body).1 = s) ∧
      (sIncludes (ct.getD "") "application/json" = false →
        (sseHandlePost s ct cl body).2 =
          ⟨400, "Error: Unsupported content-type: " ++ ct.getD "", 1, none⟩) ∧
      (sIncludes (ct.getD "") "application/json" = true →
        cl.getD 0 > MAXIMUM_MESSAGE_SIZE →
        (sseHandlePost s ct cl body).2 =
          ⟨400, "Error: Request body too large: " ++
            String.mk (natDigits (cl.getD 0)) ++ " bytes", 1, none⟩) := by
  intro s ct cl body hc hctrl
  by_cases h2 : sIncludes (ct.getD "") "application/json" = true
  · by_cases h3 : cl.getD 0 > MAXIMUM_MESSAGE_SIZE
    · have heq : sseHandlePost s ct cl body =
          (s, ⟨400, "Error: Request body too large: " ++
            String.mk (natDigits (cl.getD 0)) ++ " bytes", 1, none⟩) := by
        rw [sseHandlePost]
        simp [hc, hctrl, h2, h3]
      rw [heq]
      refine ⟨?_, Or.inr rfl, fun _ => Nat.le_refl 1, rfl,
        fun hfalse => absurd h2 (by simp [hfalse]), fun _ _ => rfl⟩
      constructor
      · intro h202
        exact absurd h202 (by simp)
      · rintro ⟨-, hle, -⟩
        omega
    · cases hp : parseJson body with
      | none =>
        have heq : sseHandlePost s ct cl body =
            (s, ⟨400, "SyntaxError: Unexpected token in JSON", 1, none⟩) := by
          rw [sseHandlePost]
          simp [hc, hctrl, h2, h3, hp]
        rw [heq]
        refine ⟨?_, Or.inr rfl, fun _ => Nat.le_refl 1, rfl,
          fun hfalse => absurd h2 (by simp [hfalse]), fun _ hsz => absurd hsz h3⟩
        constructor
        · intro h202
          exact absurd h202 (by simp)
        · rintro ⟨-, -, j, hj, -⟩
          exact absurd hj (by simp)
      | some j =>
        by_cases h4 : isValidJSONRPC j = true
        · have heq : sseHandlePost s ct cl body = (s, ⟨202, "Accepted", 0, some j⟩) := by
            rw [sseHandlePost]
            simp [hc, hctrl, h2, h3, hp, h4]
          rw [heq]
          refine ⟨?_, Or.inl rfl, fun habs => absurd habs (by simp), rfl,
            fun hfalse => absurd h2 (by simp [hfalse]), fun _ hsz => absurd hsz h3⟩
          constructor
          · intro _
            exact ⟨h2, by omega, j, rfl, h4⟩
          · intro _
            rfl
        · have heq : sseHandlePost s ct cl body =
              (s, ⟨400, "ZodError: invalid JSON-RPC message", 2, none⟩) := by
            rw [sseHandlePost]
            simp [hc, hctrl, h2, h3, hp, h4]
          rw [heq]
          refine ⟨?_, Or.inr rfl, fun _ => by norm_num, rfl,
            fun hfalse => absurd h2 (by simp [hfalse]), fun _ hsz => absurd hsz h3⟩
          constructor
          · intro h202
            exact absurd h202 (by simp)
          · rintro ⟨-, -, j', hj', hval'⟩
            have hjj : j = j' := by injection hj'
            exact absurd (hjj ▸ hval') h4
  · have heq : sseHandlePost s ct cl body =
        (s, ⟨400, "Error: Unsupported content-type: " ++ ct.getD "", 1, none⟩) := by
      rw [sseHandlePost]
      simp [hc, hctrl, h2]
    rw [heq]
    refine ⟨?_, Or.inr rfl, fun _ => Nat.le_refl 1, rfl, fun _ => rfl,
      fun hct => absurd hct h2⟩
    constructor
    · intro h202
      exact absurd h202 (by simp)
    · rintro ⟨hct, -, -⟩
      exact absurd hct h2

/-- C5 witness. -/
theorem C5_handle_post_witness :
    (⟨[], [], true, false, 0⟩ : SSEState).closed = false ∧
    (sseHandlePost ⟨[], [], true, false, 0⟩ (some "text/plain") none "{}".toList).2 =
      ⟨400, "Error: Unsupported content-type: text/plain", 1, none⟩ :=
  ⟨rfl,
   (C5_handle_post ⟨[], [], true, false, 0⟩ (some "text/plain") none "{}".toList
      rfl rfl).2.2.2.2.1 (by decide)⟩

/-- C4: a GET request that selects the SSE path (and not the WebSocket
branch) and lacks a `sessionId` query parameter is answered with the 307
redirect whose Location is the original URL with every original query
parameter preserved and `sessionId` appended with the object's canonical
identifier; the state is unchanged, so no SSE stream is opened. -/
theorem C4_redirect :
    ∀ (st : DOState) (r : Reqm),
      r.method = "GET" →
      (isWsRequest r && (sEndsWith r.url.path "/ws" || decide (r.url.path = "/"))) = false →
      (sEndsWith r.url.path "/sse" || isSSERequest r ||
        (decide (r.url.path = "/") && !isWsRequest r)) = true →
      lookupFirst r.url.query "sessionId" = none →
      doFetch st r =
        (.redirect307 (serializeUrl { r.url with
            query := r.url.query ++ [("sessionId", st.id)] }), st) ∧
      (∀ p ∈ r.url.query, p ∈ r.url.query ++ [("sessionId", st.id)]) ∧
      lookupFirst (r.url.query ++ [("sessionId", st.id)]) "sessionId" = some st.id := by
  intro st r hm hws hsse hsid
  refine ⟨?_, fun p hp => List.mem_append.mpr (Or.inl hp),
    lookupFirst_append_self _ _ _ hsid⟩
  rw [doFetch]
  simp only [hws, hm, hsse, hsid, decide_True, Bool.true_and, Bool.and_self,
    Bool.false_eq_true, if_false, ite_false, if_true, ite_true]
  rw [setParam_of_absent _ _ _ hsid]
  rw [if_pos (show (none : Option String).getD "" = "" from rfl)]

/-- C4 witness. -/
theorem C4_redirect_witness :
    doFetch ⟨"sid", none⟩
        ⟨"GET", ⟨"https", "h", "/sse", [("foo", "bar")]⟩, none, none, none, none, ""⟩ =
      (.redirect307 (serializeUrl ⟨"https", "h", "/sse",
          [("foo", "bar"), ("sessionId", "sid")]⟩), ⟨"sid", none⟩) :=
  (C4_redirect ⟨"sid", none⟩
    ⟨"GET", ⟨"https", "h", "/sse", [("foo", "bar")]⟩, none, none, none, none, ""⟩
    rfl (by decide) (by decide) (by decide)).1

/-- C1 (code bug): the JSON discovery branch of `MCPDurableObject.fetch`
is unreachable — no request at all is ever answered with the discovery
document, because every GET to the root without a WebSocket upgrade is
captured by the SSE branch first; in particular the failing input (GET /,
Accept: application/json, no upgrade, no sessionId) receives the 307
redirect instead of the documented JSON document. -/
theorem C1_json_discovery_unreachable :
    (∀ (st : DOState) (r : Reqm), isJsonInfo (doFetch st r).1 = false) ∧
    doFetch ⟨"sid", none⟩
        ⟨"GET", ⟨"https", "h", "/", []⟩, some "application/json", none, none, none, ""⟩ =
      (.redirect307 (serializeUrl ⟨"https", "h", "/", [("sessionId", "sid")]⟩),
        ⟨"sid", none⟩) := by
  constructor
  · intro st r
    rw [doFetch]
    split_ifs with h1 h2 h5 h3 h4
    · rfl
    · rfl
    · cases hE : ensureSSE st r.url with
      | mk t st' => simp [isJsonInfo]
    · cases hE : ensureSSE st r.url with
      | mk t st' =>
        cases hP : sseHandlePost t r.contentType r.contentLength r.body.toList with
        | mk t' res => simp [hE, isJsonInfo]
    · exfalso
      simp only [Bool.and_eq_true, decide_eq_true_eq] at h4
      obtain ⟨⟨hmeth, hpath⟩, -⟩ := h4
      simp only [Bool.and_eq_true, Bool.or_eq_true, decide_eq_true_eq, not_and, not_or] at h1 h2
      by_cases hw : isWsRequest r = true
      · exact (h1 hw).2 hpath
      · obtain ⟨-, himp⟩ := h2 hmeth
        have h5 := himp hpath
        have hwf : isWsRequest r = false := by
          revert hw
          cases isWsRequest r <;> simp
        rw [hwf] at h5
        simp at h5
    · rfl
  · rfl

theorem contains_of_mem {c : Char} {l : List Char} (h : c ∈ l) : l.contains c = true :=
  List.elem_eq_true_of_mem h

theorem encodeURI_append : ∀ a b : List Char,
    encodeURI (a ++ b) = encodeURI a ++ encodeURI b := by
  intro a b
  induction a with
  | nil => rfl
  | cons c cs ih =>
    rw [List.cons_append, encodeURI, encodeURI, ih, List.append_assoc]

/-- C2 counterexample: for the transport the session router actually
constructs — `messageUrl` already carrying the originating request's
query parameters, `https://h/message?foo=bar&sessionId=abc` with session
id `abc` — `start()` succeeds, but the endpoint event's data URL, which
appends a second `?sessionId=abc`, has its single `sessionId` query
parameter bound to `abc?sessionId=abc`, not to the session identifier. -/
theorem C2_counterexample :
    sseStart ⟨(mkMessageUrl ⟨"https", "h", "/", [("foo", "bar"), ("sessionId", "abc")]⟩).toList,
        "abc".toList, true, false, 0⟩ =
      .ok (⟨(mkMessageUrl ⟨"https", "h", "/", [("foo", "bar"), ("sessionId", "abc")]⟩).toList,
          "abc".toList, true, false, 0⟩,
        [renderFrame "endpoint".toList (encodeURI
           ((mkMessageUrl ⟨"https", "h", "/", [("foo", "bar"), ("sessionId", "abc")]⟩).toList ++
             "?sessionId=".toList ++ "abc".toList)),
         renderFrame "ready".toList "true".toList]) ∧
    lookupFirst (queryOfUrlChars (encodeURI
        ((mkMessageUrl ⟨"https", "h", "/", [("foo", "bar"), ("sessionId", "abc")]⟩).toList ++
          "?sessionId=".toList ++ "abc".toList))) "sessionId".toList =
      some "abc?sessionId=abc".toList ∧
    "abc?sessionId=abc".toList ≠ "abc".toList :=
  ⟨rfl, by decide, by decide⟩

/-- C2 (corrected): for an open `EdgeSSETransport`, `start()` emits the
`endpoint` event with data `encodeURI(messageUrl + "?sessionId=" +
sessionId)` followed by the `ready` event, and fails after close; the
data is a well-formed URL carrying the session identifier as the value of
exactly one `sessionId` parameter only when `messageUrl` itself carries
no query string — when the router-supplied `messageUrl` already has query
parameters, the appended `?sessionId=` corrupts the parameter value. -/
theorem C2_start_behavior :
    ∀ s : SSEState,
      (s.closed = false → s.controller = true →
        sseStart s = .ok (s, [renderFrame "endpoint".toList
            (encodeURI (s.messageUrl ++ "?sessionId=".toList ++ s.sessionId)),
          renderFrame "ready".toList "true".toList])) ∧
      (s.closed = true → sseStart s =
        .error "SSE transport already closed! If using Server class, note that connect() calls start() automatically.") ∧
      ('?' ∉ s.messageUrl →
        (∀ c ∈ s.messageUrl, encodeURIChar c = [c]) →
        (∀ c ∈ s.sessionId, encodeURIChar c = [c]) →
        '&' ∉ s.sessionId →
        queryOfUrlChars (encodeURI (s.messageUrl ++ "?sessionId=".toList ++ s.sessionId)) =
          [("sessionId".toList, s.sessionId)]) := by
  intro s
  refine ⟨fun hc hctrl => ?_, fun hc => ?_, fun hq hpm hps hamp => ?_⟩
  · rw [sseStart]
    simp [hc, hctrl]
  · rw [sseStart, if_pos hc]
  · have hplain : encodeURI (s.messageUrl ++ "?sessionId=".toList ++ s.sessionId) =
        s.messageUrl ++ "?sessionId=".toList ++ s.sessionId := by
      rw [encodeURI_append, encodeURI_append, encodeURI_plain _ hpm,
        encodeURI_plain _ hps, encodeURI_plain _ (by decide)]
    rw [hplain]
    have hshape : s.messageUrl ++ "?sessionId=".toList ++ s.sessionId =
        s.messageUrl ++ '?' :: ("sessionId".toList ++ '=' :: s.sessionId) := by
      rw [show "?sessionId=".toList = '?' :: ("sessionId".toList ++ ['=']) from by decide]
      simp
    rw [hshape]
    have hmem : '?' ∈ s.messageUrl ++ '?' :: ("sessionId".toList ++ '=' :: s.sessionId) :=
      List.mem_append.mpr (Or.inr (List.mem_cons_self _ _))
    rw [queryOfUrlChars, if_pos (contains_of_mem hmem)]
    have hdrop : ((s.messageUrl ++ '?' :: ("sessionId".toList ++ '=' :: s.sessionId)).dropWhile
        (· ≠ '?')).drop 1 = "sessionId".toList ++ '=' :: s.sessionId := by
      rw [dropWhile_append_all (fun c hcm => by
        simp
        rintro rfl
        exact hq hcm)]
      simp [List.dropWhile_cons]
    rw [hdrop]
    have hnosep : '&' ∉ "sessionId".toList ++ '=' :: s.sessionId := by
      intro hm
      rcases List.mem_append.mp hm with h | h
      · revert h; decide
      · rcases List.mem_cons.mp h with h | h
        · revert h; decide
        · exact hamp h
    rw [splitOnC_no_sep _ hnosep]
    rw [List.map_singleton]
    have htake : ("sessionId".toList ++ '=' :: s.sessionId).takeWhile (· ≠ '=') =
        "sessionId".toList := by
      rw [takeWhile_append_all (by decide)]
      simp [List.takeWhile_cons]
    have hdrop2 : (("sessionId".toList ++ '=' :: s.sessionId).dropWhile (· ≠ '=')).drop 1 =
        s.sessionId := by
      rw [dropWhile_append_all (by decide)]
      simp [List.dropWhile_cons]
    rw [htake, hdrop2]

/-- C2 witness. -/
theorem C2_start_behavior_witness :
    sseStart ⟨"https://h/message".toList, "abc".toList, true, false, 0⟩ =
      .ok (⟨"https://h/message".toList, "abc".toList, true, false, 0⟩,
        [renderFrame "endpoint".toList (encodeURI
           ("https://h/message".toList ++ "?sessionId=".toList ++ "abc".toList)),
         renderFrame "ready".toList "true".toList]) ∧
    queryOfUrlChars (encodeURI
        ("https://h/message".toList ++ "?sessionId=".toList ++ "abc".toList)) =
      [("sessionId".toList, "abc".toList)] :=
  ⟨(C2_start_behavior ⟨"https://h/message".toList, "abc".toList, true, false, 0⟩).1 rfl rfl,
   (C2_start_behavior ⟨"https://h/message".toList, "abc".toList, true, false, 0⟩).2.2
     (by decide) (by decide) (by decide) (by decide)⟩
